import Mathlib

/-! Counting protocol of `bpf/metrics.bpf.c`

A shallow embedding of the three hook programs of `bpf/metrics.bpf.c`
(`kprobe_tcp_v4_connect`, `kprobe_inet_csk_accept`,
`tracepoint_sys_enter_write`) together with the two hash maps they update.

* A `BPF_MAP_TYPE_HASH` map with `__u32` keys and `__u64` values is an
  association list of `(key, value)` pairs; `max_entries` is 1024.
* The kernel helpers the programs call (`bpf_map_lookup_elem`,
  `bpf_map_update_elem`, `bpf_probe_read_user`) and the compiler builtin
  `__sync_fetch_and_add` are modelled by their sequential semantics.
* `__u64` arithmetic is arithmetic on `Nat` reduced modulo `2 ^ 64`.
* Every hook returns its `int` status together with the new state.
* A write system call reaches the tracepoint program as the kernel's record
  of the call, read through the struct that the source declares.
* Concurrent invocations are interleavings of their helper calls, each call
  atomic on the shared maps.
-/

namespace Metrics

/-! ## Data model -/

/-- Contents of one `BPF_MAP_TYPE_HASH` map (`__u32` key, `__u64` value). -/
abbrev BpfMap := List (Nat × Nat)

/-- The `max_entries` attribute of both maps (lines 8 and 15). -/
def max_entries : Nat := 1024

/-- Number of values of the `__u32` key type. -/
def U32_MOD : Nat := 2 ^ 32

/-- Number of values of the `__u64` value type. -/
def U64_MOD : Nat := 2 ^ 64

/-- Update flag: create a new element or update an existing one. -/
def BPF_ANY : Nat := 0

/-- Update flag: create a new element only if it did not exist. -/
def BPF_NOEXIST : Nat := 1

/-- Update flag: only update an existing element. -/
def BPF_EXIST : Nat := 2

/-- Errno: no such element. -/
def ENOENT : Int := 2

/-- Errno: argument list too long, used for a full map. -/
def E2BIG : Int := 7

/-- Errno: the element exists already. -/
def EEXIST : Int := 17

/-- Errno: invalid argument. -/
def EINVAL : Int := 22

/-- Errno: bad address, the result of a faulting user read. -/
def EFAULT : Int := 14

/-- The two maps declared at lines 6-18. -/
structure State where
  tcp_metrics : BpfMap
  http_metrics : BpfMap
  deriving DecidableEq, Repr

/-- Both maps right after creation. -/
def State.empty : State := { tcp_metrics := [], http_metrics := [] }

/-- The keys stored in a map. -/
def keys (m : BpfMap) : List Nat := m.map Prod.fst

/-- A map state the kernel can hold: distinct `__u32` keys, `__u64` values,
at most `max_entries` elements. -/
def BpfMap.WF (m : BpfMap) : Prop :=
  (keys m).Nodup ∧ m.length ≤ max_entries ∧
    ∀ e ∈ m, e.1 < U32_MOD ∧ e.2 < U64_MOD

/-- Both maps of a state are well formed. -/
def State.WF (s : State) : Prop := s.tcp_metrics.WF ∧ s.http_metrics.WF

/-! ## Kernel helpers -/

/-- Helper `bpf_map_lookup_elem`: the value slot of `key`, or `none` for the
NULL pointer. -/
def bpf_map_lookup_elem : BpfMap → Nat → Option Nat
  | [], _ => none
  | (k, v) :: rest, key => if k = key then some v else bpf_map_lookup_elem rest key

/-- Builtin `__sync_fetch_and_add(count, inc)` where `count` is the pointer
that `bpf_map_lookup_elem` returned for `key`: the slot is replaced by the
`__u64` sum. -/
def sync_fetch_and_add : BpfMap → Nat → Nat → BpfMap
  | [], _, _ => []
  | (k, v) :: rest, key, inc =>
    if k = key then (k, (v + inc) % U64_MOD) :: rest
    else (k, v) :: sync_fetch_and_add rest key inc

/-- Overwrite the value slot of an existing `key`. -/
def replace_elem : BpfMap → Nat → Nat → BpfMap
  | [], _, _ => []
  | (k, v) :: rest, key, value =>
    if k = key then (k, value) :: rest else (k, v) :: replace_elem rest key value

/-- Helper `bpf_map_update_elem` on a hash map: status and new contents.
An unknown flag gives `-EINVAL`; an existing key is overwritten (`-EEXIST`
under `BPF_NOEXIST`); a new key is appended unless `BPF_EXIST` was asked
(`-ENOENT`) or the map already holds `max_entries` elements (`-E2BIG`). -/
def bpf_map_update_elem (m : BpfMap) (key value flags : Nat) : Int × BpfMap :=
  if BPF_EXIST < flags then (-EINVAL, m)
  else
    match bpf_map_lookup_elem m key with
    | some _ =>
      if flags = BPF_NOEXIST then (-EEXIST, m) else (0, replace_elem m key value)
    | none =>
      if flags = BPF_EXIST then (-ENOENT, m)
      else if max_entries ≤ m.length then (-E2BIG, m)
      else (0, m ++ [(key, value)])

/-- User memory of the writing task: the byte at an address, or `none` where
the address is not accessible. -/
abbrev UserMem := Nat → Option Nat

/-- Helper `bpf_probe_read_user(p, 4, src)`: status and the four bytes copied
into `p`. A read that faults returns `-EFAULT` and zeroes the destination. -/
def bpf_probe_read_user (mem : UserMem) (src : Nat) : Int × (Nat × Nat × Nat × Nat) :=
  match mem src, mem (src + 1), mem (src + 2), mem (src + 3) with
  | some b0, some b1, some b2, some b3 => (0, (b0, b1, b2, b3))
  | _, _, _, _ => (-EFAULT, (0, 0, 0, 0))

/-- User memory holding `bytes` from address `base` on and nothing else. -/
def mem_of_bytes (base : Nat) (bytes : List Nat) : UserMem :=
  fun a => if base ≤ a then bytes.get? (a - base) else none

/-! ## Hook programs -/

/-- The anonymous context struct of `tracepoint_sys_enter_write`
(lines 51-57). -/
structure WriteCtx where
  common_tp_fields : Nat
  common_syscall_nr : Int
  fd : Int
  buf : Nat
  count : Nat
  deriving DecidableEq, Repr

/-- Program `kprobe_tcp_v4_connect` (lines 21-32). -/
def kprobe_tcp_v4_connect (_ctx : Nat) (s : State) : Int × State :=
  let key := 1
  match bpf_map_lookup_elem s.tcp_metrics key with
  | some _ => (0, { s with tcp_metrics := sync_fetch_and_add s.tcp_metrics key 1 })
  | none =>
    let initial := 1
    (0, { s with tcp_metrics := (bpf_map_update_elem s.tcp_metrics key initial BPF_ANY).2 })

/-- Program `kprobe_inet_csk_accept` (lines 34-45). -/
def kprobe_inet_csk_accept (_ctx : Nat) (s : State) : Int × State :=
  let key := 2
  match bpf_map_lookup_elem s.tcp_metrics key with
  | some _ => (0, { s with tcp_metrics := sync_fetch_and_add s.tcp_metrics key 1 })
  | none =>
    let initial := 1
    (0, { s with tcp_metrics := (bpf_map_update_elem s.tcp_metrics key initial BPF_ANY).2 })

/-- Program `tracepoint_sys_enter_write` (lines 50-72); `mem` is the user
memory that `ctx.buf` points into. -/
def tracepoint_sys_enter_write (mem : UserMem) (ctx : WriteCtx) (s : State) : Int × State :=
  let r := bpf_probe_read_user mem ctx.buf
  let p := r.2
  if r.1 = 0 then
    if p.1 = 71 ∧ p.2.1 = 69 ∧ p.2.2.1 = 84 ∧ p.2.2.2 = 32 then
      let key := 1
      match bpf_map_lookup_elem s.http_metrics key with
      | some _ => (0, { s with http_metrics := sync_fetch_and_add s.http_metrics key 1 })
      | none =>
        let initial := 1
        (0, { s with http_metrics := (bpf_map_update_elem s.http_metrics key initial BPF_ANY).2 })
    else (0, s)
  else (0, s)

/-- One kernel event delivered to the program attached to its hook point. -/
inductive Event where
  | connect (ctx : Nat)
  | accept (ctx : Nat)
  | write (mem : UserMem) (ctx : WriteCtx)

/-- Dispatch of an event to the program bound to its hook. -/
def step (e : Event) (s : State) : Int × State :=
  match e with
  | .connect ctx => kprobe_tcp_v4_connect ctx s
  | .accept ctx => kprobe_inet_csk_accept ctx s
  | .write mem ctx => tracepoint_sys_enter_write mem ctx s

/-- The state after a sequence of events, each run to completion in turn. -/
def run : List Event → State → State
  | [], s => s
  | e :: es, s => run es (step e s).2

/-! ## The record of a write system call -/

/-- The record the kernel hands to a program attached to
`syscalls/sys_enter_write`: 8 bytes of common trace fields, the syscall
number in bytes 8-11, 4 bytes of padding, then the three arguments of
`write(fd, buf, count)` as 8-byte words at offsets 16, 24 and 32. -/
structure SysEnterRecord where
  ent : Nat
  nr : Int
  pad : Int
  fd : Nat
  buf : Nat
  count : Nat
  deriving DecidableEq, Repr

/-- The record read through the struct that lines 51-57 declare, field by
offset: `common_tp_fields` is bytes 0-7, `common_syscall_nr` bytes 8-11,
`int fd` bytes 12-15 (the padding), `buf` bytes 16-23 (where the record
keeps the descriptor) and `count` bytes 24-31 (where the record keeps the
buffer address). -/
def ctx_of_record (r : SysEnterRecord) : WriteCtx :=
  { common_tp_fields := r.ent, common_syscall_nr := r.nr, fd := r.pad,
    buf := r.fd, count := r.buf }

/-- The event of a task entering `write(fd, buf, count)` with user memory
`mem`: the tracepoint program runs on the kernel's record of the call
(syscall number 1, common fields and padding zero). -/
def sys_write (mem : UserMem) (fd buf count : Nat) : Event :=
  Event.write mem (ctx_of_record ⟨0, 1, 0, fd, buf, count⟩)

/-- User memory made of several regions, each a run of bytes from a base
address on. -/
def mem_of_regions (regions : List (Nat × List Nat)) : UserMem :=
  fun a => regions.findSome? (fun r => mem_of_bytes r.1 r.2 a)

/-- The lookup-then-add-or-insert sequence that each hook inlines, on one
map. -/
def counter_bump (m : BpfMap) (key : Nat) : BpfMap :=
  match bpf_map_lookup_elem m key with
  | some _ => sync_fetch_and_add m key 1
  | none => (bpf_map_update_elem m key 1 BPF_ANY).2

/-- Outcome of the 4-byte read is success with the bytes `G`, `E`, `T`,
space. -/
def reads_GET (mem : UserMem) (ctx : WriteCtx) : Prop :=
  bpf_probe_read_user mem ctx.buf = (0, (71, 69, 84, 32))

instance (mem : UserMem) (ctx : WriteCtx) : Decidable (reads_GET mem ctx) := by
  unfold reads_GET; infer_instance

/-- The category key a hook counts under (lines 23, 36 and 61). -/
def hook_key : Event → Nat
  | .connect _ => 1
  | .accept _ => 2
  | .write _ _ => 1

/-- The map a hook writes: `tcp_metrics` for the two kprobes, `http_metrics`
for the tracepoint. -/
def hook_table : Event → State → BpfMap
  | .connect _, s => s.tcp_metrics
  | .accept _, s => s.tcp_metrics
  | .write _ _, s => s.http_metrics

/-- Every count stored in the map lies between `lo` and `hi`. -/
def counts_within (lo hi : Nat) (m : BpfMap) : Prop := ∀ e ∈ m, lo ≤ e.2 ∧ e.2 ≤ hi

instance (lo hi : Nat) (m : BpfMap) : Decidable (counts_within lo hi m) := by
  unfold counts_within; infer_instance

/-- Every key present in the map has a count of at least 1. -/
def counts_positive (m : BpfMap) : Prop := ∀ e ∈ m, 1 ≤ e.2

instance (m : BpfMap) : Decidable (counts_positive m) := by
  unfold counts_positive; infer_instance

/-- Every key present in `tcp_metrics` and in `http_metrics` has a count of
at least 1. -/
def State.counts_positive (s : State) : Prop :=
  Metrics.counts_positive s.tcp_metrics ∧ Metrics.counts_positive s.http_metrics

instance (s : State) : Decidable s.counts_positive := by
  unfold State.counts_positive; infer_instance

/-- Every count of either map lies between `lo` and `hi`. -/
def State.counts_within (lo hi : Nat) (s : State) : Prop :=
  Metrics.counts_within lo hi s.tcp_metrics ∧ Metrics.counts_within lo hi s.http_metrics

instance (lo hi : Nat) (s : State) : Decidable (s.counts_within lo hi) := by
  unfold State.counts_within; infer_instance

/-- The keys of `tcp_metrics` are distinct and among 1 and 2, the keys of
`http_metrics` are distinct and equal to 1. -/
def State.closed_keys (s : State) : Prop :=
  (keys s.tcp_metrics).Nodup ∧ (∀ k ∈ keys s.tcp_metrics, k = 1 ∨ k = 2) ∧
    (keys s.http_metrics).Nodup ∧ ∀ k ∈ keys s.http_metrics, k = 1

instance (s : State) : Decidable s.closed_keys := by
  unfold State.closed_keys; infer_instance

/-- What a hook invocation does, as far as the tables can tell: the two
kprobes always count, the tracepoint counts exactly when its 4-byte read
succeeds with `G`, `E`, `T`, space. -/
inductive Kind where
  | connect
  | accept
  | write_GET
  | write_other
  deriving DecidableEq, Repr

/-- The kind of an event. -/
def kind : Event → Kind
  | .connect _ => .connect
  | .accept _ => .accept
  | .write mem ctx => if reads_GET mem ctx then .write_GET else .write_other

/-- How many events of a sequence are of the given kind. -/
def count_kind (κ : Kind) (es : List Event) : Nat := (es.map kind).count κ

/-- The lookup result of a key after one run of the update sequence on it in
a table with room, from the lookup result before. -/
def next_count : Option Nat → Option Nat
  | some v => some ((v + 1) % U64_MOD)
  | none => some 1

/-- Two states hold the same tables: the same entries in each map, in
whatever order the model lists them (a hash map has no order of its own). -/
def State.same_tables (s t : State) : Prop :=
  s.tcp_metrics.Perm t.tcp_metrics ∧ s.http_metrics.Perm t.http_metrics

instance (s t : State) : Decidable (s.same_tables t) := by
  unfold State.same_tables; infer_instance

/-- The lookup result that events of one kind act on: key 1 of
`tcp_metrics` for connects, key 2 of `tcp_metrics` for accepts, key 1 of
`http_metrics` for writes that read "GET ". -/
def probe : Kind → State → Option Nat
  | .connect, s => bpf_map_lookup_elem s.tcp_metrics 1
  | .accept, s => bpf_map_lookup_elem s.tcp_metrics 2
  | .write_GET, s => bpf_map_lookup_elem s.http_metrics 1
  | .write_other, _ => none

/-! ## The Counter Table of the specification -/

/-- Specification side, following the words of the spec (Data model): a
Counter Table is conceptually a map from category key to count, observed
through the point lookup `get(key) -> Count | absent`, together with the
number of entries it holds. -/
structure SpecTable where
  get : Nat → Option Nat
  size : Nat

/-- Specification side: the capacity fixed at creation, 1024 entries. -/
def capacity : Nat := 1024

/-- Specification side, following the words of the spec (Counter Table
contract): `increment(key)`: if `key` exists, add 1 to its value, a 64-bit
count updated by a single fetch-and-add; otherwise attempt to insert
`key -> 1`; the insertion fails silently, a no-op, if the table is at
capacity. -/
def spec_increment (t : SpecTable) (key : Nat) : SpecTable :=
  match t.get key with
  | some v =>
    { get := fun k => if k = key then some ((v + 1) % 2 ^ 64) else t.get k, size := t.size }
  | none =>
    if t.size < capacity then
      { get := fun k => if k = key then some 1 else t.get k, size := t.size + 1 }
    else t

/-- The Counter Table that the contents of a hash map represent. -/
def counter_table (m : BpfMap) : SpecTable :=
  { get := bpf_map_lookup_elem m, size := m.length }

/-- The count stored under `key`, if any, is below the largest `__u64`
value, so that adding 1 to it does not wrap. -/
def count_below_max (m : BpfMap) (key : Nat) : Prop :=
  match bpf_map_lookup_elem m key with
  | some v => v < 2 ^ 64 - 1
  | none => True

instance (m : BpfMap) (key : Nat) : Decidable (count_below_max m key) := by
  unfold count_below_max
  cases bpf_map_lookup_elem m key <;> infer_instance

/-! ## Concurrent invocations -/

/-- Where one hook invocation stands between two of its helper calls:
`entry` before the first call, `matched` after a 4-byte read that gave
"GET " (tracepoint only), `found` after a lookup that returned a pointer to
the slot, `missing` after a lookup that returned NULL, `done` once the hook
has returned. -/
inductive Pc where
  | entry
  | matched
  | found
  | missing
  | done
  deriving DecidableEq, Repr

/-- The state with the map that a hook writes replaced. -/
def set_hook_table : Event → State → BpfMap → State
  | .connect _, s, m => { s with tcp_metrics := m }
  | .accept _, s, m => { s with tcp_metrics := m }
  | .write _ _, s, m => { s with http_metrics := m }

/-- The test `if (count)` on the result of the hook's
`bpf_map_lookup_elem` call (lines 24-25, 37-38 and 62-63). -/
def lookup_outcome (e : Event) (s : State) : Pc :=
  match bpf_map_lookup_elem (hook_table e s) (hook_key e) with
  | some _ => Pc.found
  | none => Pc.missing

/-- One helper call of one hook invocation, atomic on the shared maps: the
4-byte read (tracepoint), the lookup, then either the
`__sync_fetch_and_add` on the slot found or the `bpf_map_update_elem` with
initial value 1. -/
def micro_step (e : Event) (pc : Pc) (s : State) : Pc × State :=
  match pc with
  | .entry =>
    match e with
    | .connect _ => (lookup_outcome e s, s)
    | .accept _ => (lookup_outcome e s, s)
    | .write mem ctx =>
      let r := bpf_probe_read_user mem ctx.buf
      let p := r.2
      if r.1 = 0 then
        if p.1 = 71 ∧ p.2.1 = 69 ∧ p.2.2.1 = 84 ∧ p.2.2.2 = 32 then (Pc.matched, s)
        else (Pc.done, s)
      else (Pc.done, s)
  | .matched => (lookup_outcome e s, s)
  | .found =>
    (Pc.done, set_hook_table e s (sync_fetch_and_add (hook_table e s) (hook_key e) 1))
  | .missing =>
    (Pc.done,
      set_hook_table e s (bpf_map_update_elem (hook_table e s) (hook_key e) 1 BPF_ANY).2)
  | .done => (Pc.done, s)

/-- Hook invocations in flight on several processing units, each with its
own position, over the shared maps. -/
structure Config where
  threads : List (Event × Pc)
  state : State

/-- All invocations of `es` entered, none having made a helper call yet. -/
def spawn (es : List Event) (s : State) : Config :=
  { threads := es.map (fun e => (e, Pc.entry)), state := s }

/-- Invocation number `i` makes its next helper call. -/
def step_thread (i : Nat) (c : Config) : Config :=
  match c.threads[i]? with
  | some t =>
    { threads := c.threads.set i (t.1, (micro_step t.1 t.2 c.state).1),
      state := (micro_step t.1 t.2 c.state).2 }
  | none => c

/-- An interleaving: the invocations named by the schedule make one helper
call each, in that order. -/
def interleave : List Nat → Config → Config
  | [], c => c
  | i :: rest, c => interleave rest (step_thread i c)

/-- Every invocation has returned. -/
def finished (c : Config) : Prop := ∀ t ∈ c.threads, t.2 = Pc.done

instance (c : Config) : Decidable (finished c) := by
  unfold finished; infer_instance

/-- Is 1 for an invocation of kind `κ` that has returned, else 0. -/
def counted (κ : Kind) (t : Event × Pc) : Nat :=
  if kind t.1 = κ ∧ t.2 = Pc.done then 1 else 0

/-- How many invocations of kind `κ` have returned. -/
def done_count (κ : Kind) (ts : List (Event × Pc)) : Nat := (ts.map (counted κ)).sum

/-- The bookkeeping that every interleaving keeps, for the key of kind `κ`
that held `v` when the invocations of `es` entered. -/
def interleave_inv (κ : Kind) (v : Nat) (es : List Event) (c : Config) : Prop :=
  c.threads.map Prod.fst = es ∧
    probe κ c.state = some ((v + done_count κ c.threads) % U64_MOD) ∧
    ∀ t ∈ c.threads, (kind t.1 = κ → t.2 ≠ Pc.missing) ∧
      (kind t.1 = Kind.write_other → t.2 = Pc.entry ∨ t.2 = Pc.done)

/-- An upper bound on the helper calls an invocation still has to make. -/
def Pc.rank : Pc → Nat
  | .entry => 3
  | .matched => 2
  | .found => 1
  | .missing => 1
  | .done => 0

/-! ## Lemmas on the helpers -/

theorem lookup_sync_fetch_and_add_ne (m : BpfMap) (key inc k : Nat) (h : k ≠ key) :
    bpf_map_lookup_elem (sync_fetch_and_add m key inc) k = bpf_map_lookup_elem m k := by
  induction m with
  | nil => rfl
  | cons e rest ih =>
    obtain ⟨a, b⟩ := e
    by_cases hk : a = key
    · subst hk
      simp [sync_fetch_and_add, bpf_map_lookup_elem, Ne.symm h]
    · by_cases ha : a = k
      · subst ha
        simp [sync_fetch_and_add, bpf_map_lookup_elem, hk]
      · simp [sync_fetch_and_add, bpf_map_lookup_elem, hk, ha, ih]

theorem lookup_sync_fetch_and_add_self (m : BpfMap) (key inc v : Nat)
    (h : bpf_map_lookup_elem m key = some v) :
    bpf_map_lookup_elem (sync_fetch_and_add m key inc) key = some ((v + inc) % U64_MOD) := by
  induction m with
  | nil => simp [bpf_map_lookup_elem] at h
  | cons e rest ih =>
    obtain ⟨a, b⟩ := e
    by_cases hk : a = key
    · subst hk
      simp [bpf_map_lookup_elem] at h
      simp [sync_fetch_and_add, bpf_map_lookup_elem, h]
    · simp [bpf_map_lookup_elem, hk] at h
      simp [sync_fetch_and_add, bpf_map_lookup_elem, hk, ih h]

theorem length_sync_fetch_and_add (m : BpfMap) (key inc : Nat) :
    (sync_fetch_and_add m key inc).length = m.length := by
  induction m with
  | nil => rfl
  | cons e rest ih =>
    obtain ⟨a, b⟩ := e
    by_cases hk : a = key <;> simp [sync_fetch_and_add, hk, ih]

theorem keys_sync_fetch_and_add (m : BpfMap) (key inc : Nat) :
    keys (sync_fetch_and_add m key inc) = keys m := by
  induction m with
  | nil => rfl
  | cons e rest ih =>
    obtain ⟨a, b⟩ := e
    by_cases hk : a = key
    · simp [sync_fetch_and_add, hk, keys]
    · simp only [keys] at ih
      simp [sync_fetch_and_add, hk, keys, ih]

theorem lookup_append_single (m : BpfMap) (key value k : Nat)
    (h : bpf_map_lookup_elem m key = none) :
    bpf_map_lookup_elem (m ++ [(key, value)]) k =
      if k = key then some value else bpf_map_lookup_elem m k := by
  induction m with
  | nil =>
    by_cases hk : key = k
    · simp [bpf_map_lookup_elem, hk]
    · simp [bpf_map_lookup_elem, hk, Ne.symm hk]
  | cons e rest ih =>
    obtain ⟨a, b⟩ := e
    by_cases ha : a = key
    · simp [bpf_map_lookup_elem, ha] at h
    · simp only [bpf_map_lookup_elem, ha, if_false] at h
      by_cases hak : a = k
      · subst hak
        simp [bpf_map_lookup_elem, ha]
      · simp [bpf_map_lookup_elem, hak, ih h]

theorem update_elem_any_absent (m : BpfMap) (key value : Nat)
    (h : bpf_map_lookup_elem m key = none) :
    bpf_map_update_elem m key value BPF_ANY =
      if max_entries ≤ m.length then (-E2BIG, m) else (0, m ++ [(key, value)]) := by
  simp [bpf_map_update_elem, h, BPF_ANY, BPF_EXIST]

/-! ## Lemmas on the inlined update sequence -/

theorem counter_bump_present (m : BpfMap) (key v : Nat)
    (h : bpf_map_lookup_elem m key = some v) :
    counter_bump m key = sync_fetch_and_add m key 1 := by
  simp [counter_bump, h]

theorem counter_bump_absent_room (m : BpfMap) (key : Nat)
    (h : bpf_map_lookup_elem m key = none) (hroom : m.length < max_entries) :
    counter_bump m key = m ++ [(key, 1)] := by
  simp [counter_bump, h, update_elem_any_absent, Nat.not_le.mpr hroom]

theorem counter_bump_absent_full (m : BpfMap) (key : Nat)
    (h : bpf_map_lookup_elem m key = none) (hfull : max_entries ≤ m.length) :
    counter_bump m key = m := by
  simp [counter_bump, h, update_elem_any_absent, hfull]

theorem lookup_counter_bump_ne (m : BpfMap) (key k : Nat) (h : k ≠ key) :
    bpf_map_lookup_elem (counter_bump m key) k = bpf_map_lookup_elem m k := by
  cases hl : bpf_map_lookup_elem m key with
  | some v => rw [counter_bump_present m key v hl, lookup_sync_fetch_and_add_ne m key 1 k h]
  | none =>
    by_cases hfull : max_entries ≤ m.length
    · rw [counter_bump_absent_full m key hl hfull]
    · rw [counter_bump_absent_room m key hl (Nat.lt_of_not_le hfull),
        lookup_append_single m key 1 k hl, if_neg h]

theorem connect_eq (ctx : Nat) (s : State) :
    kprobe_tcp_v4_connect ctx s = (0, { s with tcp_metrics := counter_bump s.tcp_metrics 1 }) := by
  unfold kprobe_tcp_v4_connect counter_bump
  dsimp only
  cases bpf_map_lookup_elem s.tcp_metrics 1 <;> rfl

theorem accept_eq (ctx : Nat) (s : State) :
    kprobe_inet_csk_accept ctx s = (0, { s with tcp_metrics := counter_bump s.tcp_metrics 2 }) := by
  unfold kprobe_inet_csk_accept counter_bump
  dsimp only
  cases bpf_map_lookup_elem s.tcp_metrics 2 <;> rfl

theorem write_eq_of_GET (mem : UserMem) (ctx : WriteCtx) (s : State) (h : reads_GET mem ctx) :
    tracepoint_sys_enter_write mem ctx s =
      (0, { s with http_metrics := counter_bump s.http_metrics 1 }) := by
  unfold reads_GET at h
  unfold tracepoint_sys_enter_write counter_bump
  simp only [h]
  cases bpf_map_lookup_elem s.http_metrics 1 <;> simp

theorem write_eq_of_not_GET (mem : UserMem) (ctx : WriteCtx) (s : State)
    (h : ¬ reads_GET mem ctx) :
    tracepoint_sys_enter_write mem ctx s = (0, s) := by
  unfold tracepoint_sys_enter_write
  by_cases h0 : (bpf_probe_read_user mem ctx.buf).1 = 0
  · by_cases hp : (bpf_probe_read_user mem ctx.buf).2.1 = 71 ∧
        (bpf_probe_read_user mem ctx.buf).2.2.1 = 69 ∧
        (bpf_probe_read_user mem ctx.buf).2.2.2.1 = 84 ∧
        (bpf_probe_read_user mem ctx.buf).2.2.2.2 = 32
    · exfalso
      apply h
      unfold reads_GET
      obtain ⟨h1, h2, h3, h4⟩ := hp
      ext <;> simp [h0, h1, h2, h3, h4]
    · simp [h0, hp]
  · simp [h0]

/-! ## Repeated connects -/

theorem connect_on_single (ctx v : Nat) (h : BpfMap) :
    (kprobe_tcp_v4_connect ctx ⟨[(1, v)], h⟩).2 = ⟨[(1, (v + 1) % U64_MOD)], h⟩ := by
  simp [kprobe_tcp_v4_connect, bpf_map_lookup_elem, sync_fetch_and_add]

theorem run_connect_from_single (cs : List Nat) (v : Nat) (h : BpfMap) (hv : v < U64_MOD) :
    run (cs.map Event.connect) ⟨[(1, v)], h⟩ = ⟨[(1, (v + cs.length) % U64_MOD)], h⟩ := by
  induction cs generalizing v with
  | nil => simp [run, Nat.mod_eq_of_lt hv]
  | cons c rest ih =>
    have hlt : (v + 1) % U64_MOD < U64_MOD := Nat.mod_lt _ (by decide)
    simp only [List.map_cons, run, step, connect_on_single, List.length_cons]
    rw [ih _ hlt]
    have : ((v + 1) % U64_MOD + rest.length) % U64_MOD = (v + (rest.length + 1)) % U64_MOD := by
      rw [Nat.add_mod, Nat.mod_mod, ← Nat.add_mod]
      congr 1
      omega
    rw [this]

theorem run_connect_empty (cs : List Nat) (h1 : 1 ≤ cs.length) :
    run (cs.map Event.connect) State.empty = ⟨[(1, cs.length % U64_MOD)], []⟩ := by
  cases cs with
  | nil => simp at h1
  | cons c rest =>
    have hfirst : (kprobe_tcp_v4_connect c State.empty).2 = ⟨[(1, 1)], []⟩ := rfl
    simp only [List.map_cons, run, step, hfirst, List.length_cons]
    rw [run_connect_from_single rest 1 [] (by decide), Nat.add_comm 1]

/-! ## Effect of one update on lookups and entries -/

theorem lookup_counter_bump_present (m : BpfMap) (key k v : Nat)
    (h : bpf_map_lookup_elem m k = some v) :
    ∃ w, bpf_map_lookup_elem (counter_bump m key) k = some w ∧
      (w = v ∨ w = (v + 1) % U64_MOD) := by
  by_cases hk : k = key
  · subst hk
    refine ⟨(v + 1) % U64_MOD, ?_, Or.inr rfl⟩
    rw [counter_bump_present m k v h, lookup_sync_fetch_and_add_self m k 1 v h]
  · exact ⟨v, by rw [lookup_counter_bump_ne m key k hk, h], Or.inl rfl⟩

theorem lookup_counter_bump_mono (m : BpfMap) (key k v : Nat) (hv : v < 2 ^ 64 - 1)
    (h : bpf_map_lookup_elem m k = some v) :
    ∃ w, bpf_map_lookup_elem (counter_bump m key) k = some w ∧
      (w = v ∨ w = (v + 1) % 2 ^ 64) ∧ v ≤ w := by
  obtain ⟨w, hw, hcase⟩ := lookup_counter_bump_present m key k v h
  refine ⟨w, hw, hcase, ?_⟩
  rcases hcase with rfl | rfl
  · exact Nat.le_refl _
  · have : (v + 1) % U64_MOD = v + 1 := Nat.mod_eq_of_lt (by unfold U64_MOD; omega)
    omega

theorem mem_sync_fetch_and_add (m : BpfMap) (key inc : Nat) (e : Nat × Nat)
    (h : e ∈ sync_fetch_and_add m key inc) :
    e ∈ m ∨ ∃ v, (e.1, v) ∈ m ∧ e.2 = (v + inc) % U64_MOD := by
  induction m with
  | nil => simp [sync_fetch_and_add] at h
  | cons x rest ih =>
    obtain ⟨a, b⟩ := x
    by_cases hk : a = key
    · simp only [sync_fetch_and_add, hk, if_true, List.mem_cons] at h
      rcases h with h | h
      · right
        exact ⟨b, by simp [h, hk], by simp [h]⟩
      · left
        exact List.mem_cons_of_mem _ h
    · simp only [sync_fetch_and_add, hk, if_false, List.mem_cons] at h
      rcases h with h | h
      · left
        simp [h]
      · rcases ih h with h1 | ⟨v, hv, hval⟩
        · left
          exact List.mem_cons_of_mem _ h1
        · right
          exact ⟨v, List.mem_cons_of_mem _ hv, hval⟩

theorem mem_counter_bump (m : BpfMap) (key : Nat) (e : Nat × Nat)
    (h : e ∈ counter_bump m key) :
    e ∈ m ∨ e = (key, 1) ∨ ∃ v, (e.1, v) ∈ m ∧ e.2 = (v + 1) % U64_MOD := by
  cases hl : bpf_map_lookup_elem m key with
  | some v =>
    rw [counter_bump_present m key v hl] at h
    rcases mem_sync_fetch_and_add m key 1 e h with h1 | h2
    · exact Or.inl h1
    · exact Or.inr (Or.inr h2)
  | none =>
    by_cases hfull : max_entries ≤ m.length
    · rw [counter_bump_absent_full m key hl hfull] at h
      exact Or.inl h
    · rw [counter_bump_absent_room m key hl (Nat.lt_of_not_le hfull)] at h
      rcases List.mem_append.mp h with h1 | h2
      · exact Or.inl h1
      · exact Or.inr (Or.inl (List.mem_singleton.mp h2))

theorem counts_within_counter_bump (m : BpfMap) (key n : Nat) (hn : n < 2 ^ 64 - 1)
    (h : counts_within 1 n m) : counts_within 1 (n + 1) (counter_bump m key) := by
  intro e he
  rcases mem_counter_bump m key e he with h1 | h2 | ⟨v, hv, hval⟩
  · have := h e h1
    omega
  · rw [h2]
    simp
  · have hb := h (e.1, v) hv
    simp only at hb
    have : (v + 1) % U64_MOD = v + 1 := Nat.mod_eq_of_lt (by unfold U64_MOD; omega)
    omega

theorem counts_within_mono (m : BpfMap) (n n' : Nat) (hn : n ≤ n')
    (h : counts_within 1 n m) : counts_within 1 n' m := by
  intro e he
  have := h e he
  omega

/-- What one event does to the state: nothing, or one run of the update
sequence on the hook's own table under the hook's own key. -/
theorem step_eq (e : Event) (s : State) :
    step e s = (0, s) ∨
      step e s = (0, { s with tcp_metrics := counter_bump s.tcp_metrics 1 }) ∨
      step e s = (0, { s with tcp_metrics := counter_bump s.tcp_metrics 2 }) ∨
      step e s = (0, { s with http_metrics := counter_bump s.http_metrics 1 }) := by
  cases e with
  | connect ctx => exact Or.inr (Or.inl (connect_eq ctx s))
  | accept ctx => exact Or.inr (Or.inr (Or.inl (accept_eq ctx s)))
  | write mem ctx =>
    by_cases h : reads_GET mem ctx
    · exact Or.inr (Or.inr (Or.inr (write_eq_of_GET mem ctx s h)))
    · exact Or.inl (write_eq_of_not_GET mem ctx s h)

theorem step_counts_within (e : Event) (s : State) (n : Nat) (hn : n < 2 ^ 64 - 1)
    (h : s.counts_within 1 n) : (step e s).2.counts_within 1 (n + 1) := by
  obtain ⟨ht, hh⟩ := h
  have ht' := counts_within_mono _ n (n + 1) (Nat.le_succ n) ht
  have hh' := counts_within_mono _ n (n + 1) (Nat.le_succ n) hh
  rcases step_eq e s with h0 | h1 | h2 | h3
  · rw [h0]; exact ⟨ht', hh'⟩
  · rw [h1]; exact ⟨counts_within_counter_bump _ 1 n hn ht, hh'⟩
  · rw [h2]; exact ⟨counts_within_counter_bump _ 2 n hn ht, hh'⟩
  · rw [h3]; exact ⟨ht', counts_within_counter_bump _ 1 n hn hh⟩

theorem run_counts_within (es : List Event) (s : State) (n : Nat)
    (hn : n + es.length ≤ 2 ^ 64 - 1) (h : s.counts_within 1 n) :
    (run es s).counts_within 1 (n + es.length) := by
  induction es generalizing s n with
  | nil => simpa [run] using h
  | cons e rest ih =>
    simp only [List.length_cons] at hn
    have hstep := step_counts_within e s n (by omega) h
    have := ih (step e s).2 (n + 1) (by omega) hstep
    simp only [run, List.length_cons]
    rw [show n + (rest.length + 1) = n + 1 + rest.length by omega]
    exact this

/-! ## Keys of a table -/

theorem lookup_eq_none_iff (m : BpfMap) (key : Nat) :
    bpf_map_lookup_elem m key = none ↔ key ∉ keys m := by
  induction m with
  | nil => simp [bpf_map_lookup_elem, keys]
  | cons x rest ih =>
    obtain ⟨a, b⟩ := x
    simp only [keys] at ih
    by_cases ha : a = key
    · simp [bpf_map_lookup_elem, keys, ha]
    · simp [bpf_map_lookup_elem, keys, ha, ih, Ne.symm ha]

theorem keys_counter_bump (m : BpfMap) (key : Nat) :
    keys (counter_bump m key) = keys m ∨
      (key ∉ keys m ∧ keys (counter_bump m key) = keys m ++ [key]) := by
  cases hl : bpf_map_lookup_elem m key with
  | some v =>
    left
    rw [counter_bump_present m key v hl, keys_sync_fetch_and_add]
  | none =>
    by_cases hfull : max_entries ≤ m.length
    · left
      rw [counter_bump_absent_full m key hl hfull]
    · right
      refine ⟨(lookup_eq_none_iff m key).mp hl, ?_⟩
      rw [counter_bump_absent_room m key hl (Nat.lt_of_not_le hfull)]
      simp [keys]

theorem keys_counter_bump_nodup (m : BpfMap) (key : Nat) (h : (keys m).Nodup) :
    (keys (counter_bump m key)).Nodup := by
  rcases keys_counter_bump m key with h1 | ⟨hnot, h2⟩
  · rw [h1]; exact h
  · rw [h2]
    refine List.nodup_append.mpr ⟨h, List.nodup_singleton key, ?_⟩
    intro a ha hb
    rw [List.mem_singleton] at hb
    exact hnot (hb ▸ ha)

theorem mem_keys_counter_bump (m : BpfMap) (key k : Nat) (h : k ∈ keys (counter_bump m key)) :
    k ∈ keys m ∨ k = key := by
  rcases keys_counter_bump m key with h1 | ⟨_, h2⟩
  · rw [h1] at h; exact Or.inl h
  · rw [h2] at h
    rcases List.mem_append.mp h with h3 | h3
    · exact Or.inl h3
    · exact Or.inr (List.mem_singleton.mp h3)

theorem length_le_of_keys (m : BpfMap) (l : List Nat) (hnd : (keys m).Nodup)
    (hsub : ∀ k ∈ keys m, k ∈ l) : m.length ≤ l.length := by
  have h := (List.subperm_of_subset hnd (fun k hk => hsub k hk)).length_le
  simpa [keys] using h

theorem step_closed_keys (e : Event) (s : State) (h : s.closed_keys) :
    (step e s).2.closed_keys := by
  obtain ⟨h1, h2, h3, h4⟩ := h
  rcases step_eq e s with h0 | hc | ha | hw
  · rw [h0]; exact ⟨h1, h2, h3, h4⟩
  · rw [hc]
    refine ⟨keys_counter_bump_nodup _ 1 h1, ?_, h3, h4⟩
    intro k hk
    rcases mem_keys_counter_bump _ 1 k hk with hm | hm
    · exact h2 k hm
    · exact Or.inl hm
  · rw [ha]
    refine ⟨keys_counter_bump_nodup _ 2 h1, ?_, h3, h4⟩
    intro k hk
    rcases mem_keys_counter_bump _ 2 k hk with hm | hm
    · exact h2 k hm
    · exact Or.inr hm
  · rw [hw]
    refine ⟨h1, h2, keys_counter_bump_nodup _ 1 h3, ?_⟩
    intro k hk
    rcases mem_keys_counter_bump _ 1 k hk with hm | hm
    · exact h4 k hm
    · exact hm

theorem run_closed_keys (es : List Event) (s : State) (h : s.closed_keys) :
    (run es s).closed_keys := by
  induction es generalizing s with
  | nil => exact h
  | cons e rest ih => exact ih _ (step_closed_keys e s h)

theorem closed_keys_length (s : State) (h : s.closed_keys) :
    s.tcp_metrics.length ≤ 2 ∧ s.http_metrics.length ≤ 1 := by
  obtain ⟨h1, h2, h3, h4⟩ := h
  constructor
  · refine length_le_of_keys s.tcp_metrics [1, 2] h1 ?_
    intro k hk
    rcases h2 k hk with rfl | rfl <;> simp
  · refine length_le_of_keys s.http_metrics [1] h3 ?_
    intro k hk
    rw [h4 k hk]
    simp

/-! ## The update sequence against the specification's increment -/

theorem counter_table_counter_bump (m : BpfMap) (key : Nat) :
    counter_table (counter_bump m key) = spec_increment (counter_table m) key := by
  cases hl : bpf_map_lookup_elem m key with
  | some v =>
    rw [counter_bump_present m key v hl]
    simp only [counter_table, spec_increment, hl, length_sync_fetch_and_add]
    congr 1
    funext k
    by_cases hk : k = key
    · subst hk
      rw [lookup_sync_fetch_and_add_self m k 1 v hl]
      simp [U64_MOD]
    · rw [lookup_sync_fetch_and_add_ne m key 1 k hk]
      simp [hk]
  | none =>
    by_cases hfull : max_entries ≤ m.length
    · rw [counter_bump_absent_full m key hl hfull]
      have : ¬ m.length < capacity := by
        unfold capacity
        unfold max_entries at hfull
        omega
      simp [counter_table, spec_increment, hl, this]
    · have hroom : m.length < max_entries := Nat.lt_of_not_le hfull
      have hcap : m.length < capacity := hroom
      rw [counter_bump_absent_room m key hl hroom]
      simp only [counter_table, spec_increment, hl, hcap, if_true, List.length_append,
        List.length_singleton]
      congr 1
      funext k
      rw [lookup_append_single m key 1 k hl]

/-! ## Event sequences seen through the lookups -/

theorem lookup_counter_bump_self_room (m : BpfMap) (key : Nat) (hroom : m.length < max_entries) :
    bpf_map_lookup_elem (counter_bump m key) key = next_count (bpf_map_lookup_elem m key) := by
  cases hl : bpf_map_lookup_elem m key with
  | some v =>
    rw [counter_bump_present m key v hl, lookup_sync_fetch_and_add_self m key 1 v hl]
    rfl
  | none =>
    rw [counter_bump_absent_room m key hl hroom, lookup_append_single m key 1 key hl]
    simp [next_count]

theorem count_kind_cons (κ : Kind) (e : Event) (es : List Event) :
    count_kind κ (e :: es) = count_kind κ es + if kind e = κ then 1 else 0 := by
  simp [count_kind, List.count_cons]

theorem probe_step (κ : Kind) (hκ : κ ≠ Kind.write_other) (e : Event) (s : State)
    (h : s.closed_keys) :
    probe κ (step e s).2 = if kind e = κ then next_count (probe κ s) else probe κ s := by
  have hlen := closed_keys_length s h
  have htcp : s.tcp_metrics.length < max_entries := by unfold max_entries; omega
  have hhttp : s.http_metrics.length < max_entries := by unfold max_entries; omega
  cases e with
  | connect ctx =>
    have hs : step (Event.connect ctx) s =
        (0, { s with tcp_metrics := counter_bump s.tcp_metrics 1 }) := connect_eq ctx s
    rw [hs]
    cases κ with
    | connect => simpa [probe, kind] using lookup_counter_bump_self_room _ 1 htcp
    | accept => simpa [probe, kind] using lookup_counter_bump_ne s.tcp_metrics 1 2 (by decide)
    | write_GET => simp [probe, kind]
    | write_other => exact absurd rfl hκ
  | accept ctx =>
    have hs : step (Event.accept ctx) s =
        (0, { s with tcp_metrics := counter_bump s.tcp_metrics 2 }) := accept_eq ctx s
    rw [hs]
    cases κ with
    | connect => simpa [probe, kind] using lookup_counter_bump_ne s.tcp_metrics 2 1 (by decide)
    | accept => simpa [probe, kind] using lookup_counter_bump_self_room _ 2 htcp
    | write_GET => simp [probe, kind]
    | write_other => exact absurd rfl hκ
  | write mem ctx =>
    by_cases hg : reads_GET mem ctx
    · have hs : step (Event.write mem ctx) s =
          (0, { s with http_metrics := counter_bump s.http_metrics 1 }) :=
        write_eq_of_GET mem ctx s hg
      rw [hs]
      cases κ with
      | connect => simp [probe, kind, hg]
      | accept => simp [probe, kind, hg]
      | write_GET => simpa [probe, kind, hg] using lookup_counter_bump_self_room _ 1 hhttp
      | write_other => exact absurd rfl hκ
    · have hs : step (Event.write mem ctx) s = (0, s) := write_eq_of_not_GET mem ctx s hg
      rw [hs]
      cases κ with
      | connect => simp [kind, hg]
      | accept => simp [kind, hg]
      | write_GET => simp [kind, hg]
      | write_other => exact absurd rfl hκ

theorem probe_run (κ : Kind) (hκ : κ ≠ Kind.write_other) (es : List Event) (s : State)
    (h : s.closed_keys) :
    probe κ (run es s) = next_count^[count_kind κ es] (probe κ s) := by
  induction es generalizing s with
  | nil => simp [run, count_kind]
  | cons e rest ih =>
    have hstep := probe_step κ hκ e s h
    have hrest := ih (step e s).2 (step_closed_keys e s h)
    simp only [run]
    rw [hrest, hstep, count_kind_cons]
    by_cases hk : kind e = κ
    · simp only [hk, if_true]
      rw [Function.iterate_succ_apply]
    · simp only [hk, if_false, Nat.add_zero]

theorem mem_iff_lookup (m : BpfMap) (hnd : (keys m).Nodup) (k v : Nat) :
    (k, v) ∈ m ↔ bpf_map_lookup_elem m k = some v := by
  induction m with
  | nil => simp [bpf_map_lookup_elem]
  | cons x rest ih =>
    obtain ⟨a, b⟩ := x
    have hnd2 : a ∉ keys rest ∧ (keys rest).Nodup := by
      simpa [keys] using hnd
    have ih2 := ih hnd2.2
    by_cases ha : a = k
    · subst ha
      have hnot : (a, v) ∉ rest := by
        intro hmem
        apply hnd2.1
        simp only [keys, List.mem_map]
        exact ⟨(a, v), hmem, rfl⟩
      simp only [List.mem_cons, bpf_map_lookup_elem, if_true, Prod.mk.injEq, true_and,
        Option.some.injEq]
      constructor
      · rintro (h | h)
        · exact h.symm
        · exact absurd h hnot
      · intro h
        exact Or.inl h.symm
    · simp only [List.mem_cons, bpf_map_lookup_elem, ha, if_false, Prod.mk.injEq]
      rw [← ih2]
      constructor
      · rintro (⟨h1, _⟩ | h)
        · exact absurd h1.symm ha
        · exact h
      · intro h
        exact Or.inr h

theorem perm_of_lookup_eq (m1 m2 : BpfMap) (h1 : (keys m1).Nodup) (h2 : (keys m2).Nodup)
    (hl : ∀ k, bpf_map_lookup_elem m1 k = bpf_map_lookup_elem m2 k) : m1.Perm m2 := by
  refine (List.perm_ext_iff_of_nodup (List.Nodup.of_map Prod.fst h1)
    (List.Nodup.of_map Prod.fst h2)).mpr ?_
  rintro ⟨k, v⟩
  rw [mem_iff_lookup m1 h1, mem_iff_lookup m2 h2, hl k]

/-- Two states with closed key sets that agree on the three lookups the
hooks act on hold the same tables. -/
theorem same_tables_of_probe (s t : State) (hs : s.closed_keys) (ht : t.closed_keys)
    (hp : ∀ κ, probe κ s = probe κ t) :
    s.same_tables t ∧
      (∀ k, bpf_map_lookup_elem s.tcp_metrics k = bpf_map_lookup_elem t.tcp_metrics k) ∧
      (∀ k, bpf_map_lookup_elem s.http_metrics k = bpf_map_lookup_elem t.http_metrics k) := by
  have htcp : ∀ k, bpf_map_lookup_elem s.tcp_metrics k = bpf_map_lookup_elem t.tcp_metrics k := by
    intro k
    by_cases hk1 : k = 1
    · subst hk1; exact hp Kind.connect
    · by_cases hk2 : k = 2
      · subst hk2; exact hp Kind.accept
      · have hsn : bpf_map_lookup_elem s.tcp_metrics k = none := by
          rw [lookup_eq_none_iff]
          intro hk
          rcases hs.2.1 k hk with h | h
          · exact hk1 h
          · exact hk2 h
        have htn : bpf_map_lookup_elem t.tcp_metrics k = none := by
          rw [lookup_eq_none_iff]
          intro hk
          rcases ht.2.1 k hk with h | h
          · exact hk1 h
          · exact hk2 h
        rw [hsn, htn]
  have hhttp : ∀ k,
      bpf_map_lookup_elem s.http_metrics k = bpf_map_lookup_elem t.http_metrics k := by
    intro k
    by_cases hk1 : k = 1
    · subst hk1; exact hp Kind.write_GET
    · have hsn : bpf_map_lookup_elem s.http_metrics k = none := by
        rw [lookup_eq_none_iff]
        intro hk
        exact hk1 (hs.2.2.2 k hk)
      have htn : bpf_map_lookup_elem t.http_metrics k = none := by
        rw [lookup_eq_none_iff]
        intro hk
        exact hk1 (ht.2.2.2 k hk)
      rw [hsn, htn]
  exact ⟨⟨perm_of_lookup_eq _ _ hs.1 ht.1 htcp, perm_of_lookup_eq _ _ hs.2.2.1 ht.2.2.1 hhttp⟩,
    htcp, hhttp⟩

/-- From a state with closed key sets, two event sequences with the same
number of connects, of accepts and of writes that read "GET " end in the
same tables. -/
theorem run_same_tables (s : State) (hs : s.closed_keys) (es1 es2 : List Event)
    (hc : count_kind Kind.connect es1 = count_kind Kind.connect es2)
    (ha : count_kind Kind.accept es1 = count_kind Kind.accept es2)
    (hg : count_kind Kind.write_GET es1 = count_kind Kind.write_GET es2) :
    (run es1 s).same_tables (run es2 s) ∧
      (∀ k, bpf_map_lookup_elem (run es1 s).tcp_metrics k =
        bpf_map_lookup_elem (run es2 s).tcp_metrics k) ∧
      (∀ k, bpf_map_lookup_elem (run es1 s).http_metrics k =
        bpf_map_lookup_elem (run es2 s).http_metrics k) := by
  apply same_tables_of_probe _ _ (run_closed_keys es1 s hs) (run_closed_keys es2 s hs)
  intro κ
  cases κ with
  | connect => rw [probe_run _ (by decide) es1 s hs, probe_run _ (by decide) es2 s hs, hc]
  | accept => rw [probe_run _ (by decide) es1 s hs, probe_run _ (by decide) es2 s hs, ha]
  | write_GET => rw [probe_run _ (by decide) es1 s hs, probe_run _ (by decide) es2 s hs, hg]
  | write_other => rfl

/-! ## Zero-valued entries -/

theorem mem_sync_fetch_and_add_cases (m : BpfMap) (key inc : Nat) (e : Nat × Nat)
    (h : e ∈ sync_fetch_and_add m key inc) :
    e ∈ m ∨ ∃ v, bpf_map_lookup_elem m key = some v ∧ e = (key, (v + inc) % U64_MOD) := by
  induction m with
  | nil => simp [sync_fetch_and_add] at h
  | cons x rest ih =>
    obtain ⟨a, b⟩ := x
    by_cases hk : a = key
    · subst hk
      simp only [sync_fetch_and_add, if_true, List.mem_cons] at h
      rcases h with h | h
      · right
        exact ⟨b, by simp [bpf_map_lookup_elem], h⟩
      · left
        exact List.mem_cons_of_mem _ h
    · simp only [sync_fetch_and_add, hk, if_false, List.mem_cons] at h
      rcases h with h | h
      · left
        simp [h]
      · rcases ih h with h1 | ⟨v, hv, hval⟩
        · left
          exact List.mem_cons_of_mem _ h1
        · right
          exact ⟨v, by simp [bpf_map_lookup_elem, hk, hv], hval⟩

theorem mem_sync_fetch_and_add_self (m : BpfMap) (key inc v : Nat)
    (h : bpf_map_lookup_elem m key = some v) :
    (key, (v + inc) % U64_MOD) ∈ sync_fetch_and_add m key inc := by
  induction m with
  | nil => simp [bpf_map_lookup_elem] at h
  | cons x rest ih =>
    obtain ⟨a, b⟩ := x
    by_cases hk : a = key
    · subst hk
      simp only [bpf_map_lookup_elem, if_true, Option.some.injEq] at h
      simp [sync_fetch_and_add, h]
    · simp only [bpf_map_lookup_elem, hk, if_false] at h
      simp only [sync_fetch_and_add, hk, if_false]
      exact List.mem_cons_of_mem _ (ih h)

theorem counts_positive_counter_bump (m : BpfMap) (key : Nat) (hpos : counts_positive m)
    (hmax : count_below_max m key) : counts_positive (counter_bump m key) := by
  unfold count_below_max at hmax
  intro e he
  cases hl : bpf_map_lookup_elem m key with
  | some v =>
    rw [hl] at hmax
    rw [counter_bump_present m key v hl] at he
    rcases mem_sync_fetch_and_add_cases m key 1 e he with h1 | ⟨w, hw, hval⟩
    · exact hpos e h1
    · rw [hl] at hw
      have hwv : v = w := Option.some.inj hw
      subst hwv
      have hmod : (v + 1) % U64_MOD = v + 1 := Nat.mod_eq_of_lt (by unfold U64_MOD; omega)
      rw [hval, hmod]
      exact Nat.le_add_left 1 v
  | none =>
    by_cases hfull : max_entries ≤ m.length
    · rw [counter_bump_absent_full m key hl hfull] at he
      exact hpos e he
    · rw [counter_bump_absent_room m key hl (Nat.lt_of_not_le hfull)] at he
      rcases List.mem_append.mp he with h1 | h2
      · exact hpos e h1
      · rw [List.mem_singleton.mp h2]

theorem not_counts_positive_counter_bump (m : BpfMap) (key : Nat)
    (h : bpf_map_lookup_elem m key = some (2 ^ 64 - 1)) :
    ¬ counts_positive (counter_bump m key) := by
  intro hpos
  rw [counter_bump_present m key _ h] at hpos
  have hmem := mem_sync_fetch_and_add_self m key 1 _ h
  have h0 : (2 ^ 64 - 1 + 1) % U64_MOD = 0 := by decide
  rw [h0] at hmem
  have := hpos (key, 0) hmem
  simp at this

theorem step_counts_positive (e : Event) (s : State) (hpos : s.counts_positive)
    (hsafe : kind e = Kind.write_other ∨ count_below_max (hook_table e s) (hook_key e)) :
    (step e s).2.counts_positive := by
  cases e with
  | connect ctx =>
    have hmax : count_below_max s.tcp_metrics 1 := by
      rcases hsafe with h | h
      · simp [kind] at h
      · exact h
    have hs : step (Event.connect ctx) s =
        (0, { s with tcp_metrics := counter_bump s.tcp_metrics 1 }) := connect_eq ctx s
    rw [hs]
    exact ⟨counts_positive_counter_bump _ 1 hpos.1 hmax, hpos.2⟩
  | accept ctx =>
    have hmax : count_below_max s.tcp_metrics 2 := by
      rcases hsafe with h | h
      · simp [kind] at h
      · exact h
    have hs : step (Event.accept ctx) s =
        (0, { s with tcp_metrics := counter_bump s.tcp_metrics 2 }) := accept_eq ctx s
    rw [hs]
    exact ⟨counts_positive_counter_bump _ 2 hpos.1 hmax, hpos.2⟩
  | write mem ctx =>
    by_cases hg : reads_GET mem ctx
    · have hmax : count_below_max s.http_metrics 1 := by
        rcases hsafe with h | h
        · simp [kind, hg] at h
        · exact h
      have hs : step (Event.write mem ctx) s =
          (0, { s with http_metrics := counter_bump s.http_metrics 1 }) :=
        write_eq_of_GET mem ctx s hg
      rw [hs]
      exact ⟨hpos.1, counts_positive_counter_bump _ 1 hpos.2 hmax⟩
    · have hs : step (Event.write mem ctx) s = (0, s) := write_eq_of_not_GET mem ctx s hg
      rw [hs]
      exact hpos

theorem step_not_counts_positive (e : Event) (s : State) (hk : kind e ≠ Kind.write_other)
    (hmax : bpf_map_lookup_elem (hook_table e s) (hook_key e) = some (2 ^ 64 - 1)) :
    ¬ (step e s).2.counts_positive := by
  cases e with
  | connect ctx =>
    have hs : step (Event.connect ctx) s =
        (0, { s with tcp_metrics := counter_bump s.tcp_metrics 1 }) := connect_eq ctx s
    rw [hs]
    exact fun hpos => not_counts_positive_counter_bump _ 1 hmax hpos.1
  | accept ctx =>
    have hs : step (Event.accept ctx) s =
        (0, { s with tcp_metrics := counter_bump s.tcp_metrics 2 }) := accept_eq ctx s
    rw [hs]
    exact fun hpos => not_counts_positive_counter_bump _ 2 hmax hpos.1
  | write mem ctx =>
    by_cases hg : reads_GET mem ctx
    · have hs : step (Event.write mem ctx) s =
          (0, { s with http_metrics := counter_bump s.http_metrics 1 }) :=
        write_eq_of_GET mem ctx s hg
      rw [hs]
      exact fun hpos => not_counts_positive_counter_bump _ 1 hmax hpos.2
    · exact absurd (by simp [kind, hg]) hk

theorem iterate_next_count_none (n : Nat) :
    next_count^[n] none = if n = 0 then none else some (n % U64_MOD) := by
  induction n with
  | zero => rfl
  | succ k ih =>
    rw [Function.iterate_succ_apply', ih]
    by_cases hk : k = 0
    · subst hk
      decide
    · simp only [hk, if_false, next_count, Nat.succ_ne_zero]
      congr 1
      unfold U64_MOD
      omega

theorem counts_positive_iff_probe (t : State) (h : t.closed_keys) :
    t.counts_positive ↔ ∀ κ v, probe κ t = some v → 1 ≤ v := by
  obtain ⟨h1, h2, h3, h4⟩ := h
  constructor
  · intro hpos κ v hp
    cases κ with
    | connect => exact hpos.1 (1, v) ((mem_iff_lookup _ h1 1 v).mpr hp)
    | accept => exact hpos.1 (2, v) ((mem_iff_lookup _ h1 2 v).mpr hp)
    | write_GET => exact hpos.2 (1, v) ((mem_iff_lookup _ h3 1 v).mpr hp)
    | write_other => simp [probe] at hp
  · intro hp
    constructor
    · rintro ⟨k, v⟩ hmem
      have hk : k ∈ keys t.tcp_metrics := by
        simp only [keys, List.mem_map]
        exact ⟨(k, v), hmem, rfl⟩
      have hl := (mem_iff_lookup _ h1 k v).mp hmem
      rcases h2 k hk with rfl | rfl
      · exact hp Kind.connect v hl
      · exact hp Kind.accept v hl
    · rintro ⟨k, v⟩ hmem
      have hk : k ∈ keys t.http_metrics := by
        simp only [keys, List.mem_map]
        exact ⟨(k, v), hmem, rfl⟩
      have hl := (mem_iff_lookup _ h3 k v).mp hmem
      have hk1 := h4 k hk
      subst hk1
      exact hp Kind.write_GET v hl

theorem run_empty_counts_positive_iff (es : List Event) :
    (run es State.empty).counts_positive ↔
      ∀ κ, κ ≠ Kind.write_other → count_kind κ es = 0 ∨ count_kind κ es % 2 ^ 64 ≠ 0 := by
  have hempty : State.empty.closed_keys := by decide
  have hprobe : ∀ κ, κ ≠ Kind.write_other →
      probe κ (run es State.empty) =
        if count_kind κ es = 0 then none else some (count_kind κ es % U64_MOD) := by
    intro κ hκ
    rw [probe_run κ hκ es State.empty hempty]
    have h0 : probe κ State.empty = none := by cases κ <;> rfl
    rw [h0, iterate_next_count_none]
  rw [counts_positive_iff_probe _ (run_closed_keys es State.empty hempty)]
  constructor
  · intro h κ hκ
    by_cases h0 : count_kind κ es = 0
    · exact Or.inl h0
    · right
      have hp := hprobe κ hκ
      rw [if_neg h0] at hp
      have := h κ _ hp
      unfold U64_MOD at this
      omega
  · intro h κ v hp
    by_cases hκ : κ = Kind.write_other
    · subst hκ
      simp [probe] at hp
    · rw [hprobe κ hκ] at hp
      by_cases h0 : count_kind κ es = 0
      · simp [h0] at hp
      · rw [if_neg h0] at hp
        have hv : count_kind κ es % U64_MOD = v := Option.some.inj hp
        rcases h κ hκ with h1 | h1
        · exact absurd h1 h0
        · unfold U64_MOD at hv
          omega

/-! ## Interleaved helper calls -/

theorem lookup_replace_elem_ne (m : BpfMap) (key value k : Nat) (h : k ≠ key) :
    bpf_map_lookup_elem (replace_elem m key value) k = bpf_map_lookup_elem m k := by
  induction m with
  | nil => rfl
  | cons x rest ih =>
    obtain ⟨a, b⟩ := x
    by_cases hk : a = key
    · subst hk
      simp [replace_elem, bpf_map_lookup_elem, Ne.symm h]
    · by_cases ha : a = k
      · subst ha
        simp [replace_elem, bpf_map_lookup_elem, hk]
      · simp [replace_elem, bpf_map_lookup_elem, hk, ha, ih]

theorem lookup_update_elem_ne (m : BpfMap) (key value flags k : Nat) (h : k ≠ key) :
    bpf_map_lookup_elem (bpf_map_update_elem m key value flags).2 k =
      bpf_map_lookup_elem m k := by
  unfold bpf_map_update_elem
  by_cases hf : BPF_EXIST < flags
  · simp [hf]
  · simp only [hf, if_false]
    cases hl : bpf_map_lookup_elem m key with
    | some v =>
      by_cases hn : flags = BPF_NOEXIST
      · simp [hn]
      · simp only [hn, if_false]
        exact lookup_replace_elem_ne m key value k h
    | none =>
      by_cases he : flags = BPF_EXIST
      · simp [he]
      · by_cases hfull : max_entries ≤ m.length
        · simp [he, hfull]
        · simp only [he, hfull, if_false]
          rw [lookup_append_single m key value k hl, if_neg h]

theorem probe_kind (e : Event) (s : State) (h : kind e ≠ Kind.write_other) :
    probe (kind e) s = bpf_map_lookup_elem (hook_table e s) (hook_key e) := by
  cases e with
  | connect ctx => rfl
  | accept ctx => rfl
  | write mem ctx =>
    by_cases hg : reads_GET mem ctx
    · simp [kind, hg, probe, hook_table, hook_key]
    · exact absurd (by simp [kind, hg]) h

theorem probe_set_hook_table_self (e : Event) (s : State) (m : BpfMap)
    (h : kind e ≠ Kind.write_other) :
    probe (kind e) (set_hook_table e s m) = bpf_map_lookup_elem m (hook_key e) := by
  cases e with
  | connect ctx => rfl
  | accept ctx => rfl
  | write mem ctx =>
    by_cases hg : reads_GET mem ctx
    · simp [kind, hg, probe, set_hook_table, hook_key]
    · exact absurd (by simp [kind, hg]) h

theorem probe_set_hook_table_ne (κ : Kind) (e : Event) (s : State) (m : BpfMap)
    (hne : kind e ≠ κ) (he : kind e ≠ Kind.write_other)
    (hagree : ∀ k, k ≠ hook_key e →
      bpf_map_lookup_elem m k = bpf_map_lookup_elem (hook_table e s) k) :
    probe κ (set_hook_table e s m) = probe κ s := by
  cases e with
  | connect ctx =>
    cases κ with
    | connect => exact absurd rfl hne
    | accept => exact hagree 2 (by simp [hook_key])
    | write_GET => rfl
    | write_other => rfl
  | accept ctx =>
    cases κ with
    | connect => exact hagree 1 (by simp [hook_key])
    | accept => exact absurd rfl hne
    | write_GET => rfl
    | write_other => rfl
  | write mem ctx =>
    by_cases hg : reads_GET mem ctx
    · cases κ with
      | connect => rfl
      | accept => rfl
      | write_GET => exact absurd (by simp [kind, hg]) hne
      | write_other => rfl
    · exact absurd (by simp [kind, hg]) he

theorem lookup_outcome_found (κ : Kind) (hκ : κ ≠ Kind.write_other) (e : Event) (s : State)
    (x : Nat) (hk : kind e = κ) (hp : probe κ s = some x) :
    lookup_outcome e s = Pc.found := by
  subst hk
  rw [probe_kind e s hκ] at hp
  simp [lookup_outcome, hp]

theorem lookup_outcome_ne_done (e : Event) (s : State) : lookup_outcome e s ≠ Pc.done := by
  unfold lookup_outcome
  cases bpf_map_lookup_elem (hook_table e s) (hook_key e) <;> simp

theorem micro_step_entry (e : Event) (s : State) :
    micro_step e Pc.entry s =
      match kind e with
      | Kind.write_GET => (Pc.matched, s)
      | Kind.write_other => (Pc.done, s)
      | _ => (lookup_outcome e s, s) := by
  cases e with
  | connect ctx => rfl
  | accept ctx => rfl
  | write mem ctx =>
    by_cases hg : reads_GET mem ctx
    · have h := hg
      unfold reads_GET at h
      simp [micro_step, kind, hg, h]
    · have hk : kind (Event.write mem ctx) = Kind.write_other := by simp [kind, hg]
      rw [hk]
      simp only [micro_step]
      by_cases h0 : (bpf_probe_read_user mem ctx.buf).1 = 0
      · by_cases hp : (bpf_probe_read_user mem ctx.buf).2.1 = 71 ∧
            (bpf_probe_read_user mem ctx.buf).2.2.1 = 69 ∧
            (bpf_probe_read_user mem ctx.buf).2.2.2.1 = 84 ∧
            (bpf_probe_read_user mem ctx.buf).2.2.2.2 = 32
        · exfalso
          apply hg
          unfold reads_GET
          obtain ⟨h1, h2, h3, h4⟩ := hp
          ext <;> simp [h0, h1, h2, h3, h4]
        · simp [h0, hp]
      · simp [h0]

theorem counted_of_ne_done (κ : Kind) (e : Event) (pc : Pc) (h : pc ≠ Pc.done) :
    counted κ (e, pc) = 0 := by
  simp [counted, h]

theorem counted_of_kind_ne (κ : Kind) (e : Event) (pc : Pc) (h : kind e ≠ κ) :
    counted κ (e, pc) = 0 := by
  simp [counted, h]

/-- One helper call of one invocation keeps the bookkeeping of the key of
kind `κ`: its lookup is the initial value plus the number of returned
invocations of that kind, in `__u64` arithmetic. -/
theorem micro_step_inv (κ : Kind) (hκ : κ ≠ Kind.write_other) (e : Event) (pc : Pc)
    (s : State) (v D : Nat)
    (hp : probe κ s = some ((v + D) % U64_MOD))
    (h1 : kind e = κ → pc ≠ Pc.missing)
    (h2 : kind e = Kind.write_other → pc = Pc.entry ∨ pc = Pc.done) :
    ∃ d, counted κ (e, (micro_step e pc s).1) = counted κ (e, pc) + d ∧
      probe κ (micro_step e pc s).2 = some ((v + (D + d)) % U64_MOD) ∧
      (kind e = κ → (micro_step e pc s).1 ≠ Pc.missing) ∧
      (kind e = Kind.write_other →
        (micro_step e pc s).1 = Pc.entry ∨ (micro_step e pc s).1 = Pc.done) := by
  cases pc with
  | entry =>
    refine ⟨0, ?_, ?_, ?_, ?_⟩
    · rw [micro_step_entry]
      cases hk : kind e with
      | connect => simp [counted, lookup_outcome_ne_done]
      | accept => simp [counted, lookup_outcome_ne_done]
      | write_GET => simp [counted]
      | write_other => simp [counted, hk, Ne.symm hκ]
    · rw [micro_step_entry]
      cases hk : kind e <;> simpa using hp
    · intro hk
      rw [micro_step_entry]
      have hf := lookup_outcome_found κ hκ e s _ hk hp
      cases hk2 : kind e <;> simp [hf]
    · intro hk
      rw [micro_step_entry, hk]
      exact Or.inr rfl
  | matched =>
    refine ⟨0, ?_, by simpa [micro_step] using hp, ?_, ?_⟩
    · simp [micro_step, counted, lookup_outcome_ne_done]
    · intro hk
      simp [micro_step, lookup_outcome_found κ hκ e s _ hk hp]
    · intro hk
      rcases h2 hk with h | h <;> simp at h
  | found =>
    have hnot : kind e ≠ Kind.write_other := by
      intro hk
      rcases h2 hk with h | h <;> simp at h
    by_cases hk : kind e = κ
    · refine ⟨1, ?_, ?_, by simp [micro_step], fun hk2 => absurd hk2 hnot⟩
      · simp [micro_step, counted, hk]
      · subst hk
        rw [probe_kind e s hnot] at hp
        simp only [micro_step]
        rw [probe_set_hook_table_self e s _ hnot, lookup_sync_fetch_and_add_self _ _ 1 _ hp]
        congr 1
        unfold U64_MOD
        omega
    · refine ⟨0, ?_, ?_, by simp [micro_step], fun hk2 => absurd hk2 hnot⟩
      · simp [micro_step, counted, hk]
      · simp only [micro_step, Nat.add_zero]
        rw [probe_set_hook_table_ne κ e s _ hk hnot
          (fun k hne => lookup_sync_fetch_and_add_ne _ _ 1 k hne)]
        exact hp
  | missing =>
    have hnot : kind e ≠ Kind.write_other := by
      intro hk
      rcases h2 hk with h | h <;> simp at h
    have hk : kind e ≠ κ := fun hk => h1 hk rfl
    refine ⟨0, ?_, ?_, by simp [micro_step], fun hk2 => absurd hk2 hnot⟩
    · simp [micro_step, counted, hk]
    · simp only [micro_step, Nat.add_zero]
      rw [probe_set_hook_table_ne κ e s _ hk hnot
        (fun k hne => lookup_update_elem_ne _ _ 1 BPF_ANY k hne)]
      exact hp
  | done =>
    refine ⟨0, by simp [micro_step], by simpa [micro_step] using hp, by simp [micro_step],
      fun _ => Or.inr (by simp [micro_step])⟩

theorem sum_map_set (w : Event × Pc → Nat) (l : List (Event × Pc)) (i : Nat)
    (old x : Event × Pc) (h : l[i]? = some old) :
    ((l.set i x).map w).sum + w old = (l.map w).sum + w x := by
  induction l generalizing i with
  | nil => simp at h
  | cons a rest ih =>
    cases i with
    | zero =>
      simp only [List.getElem?_cons_zero, Option.some.injEq] at h
      subst h
      simp only [List.set_cons_zero, List.map_cons, List.sum_cons]
      omega
    | succ j =>
      simp only [List.getElem?_cons_succ] at h
      have := ih j h
      simp only [List.set_cons_succ, List.map_cons, List.sum_cons]
      omega

theorem map_fst_set (l : List (Event × Pc)) (i : Nat) (t : Event × Pc) (pc : Pc)
    (h : l[i]? = some t) : (l.set i (t.1, pc)).map Prod.fst = l.map Prod.fst := by
  induction l generalizing i with
  | nil => simp at h
  | cons a rest ih =>
    cases i with
    | zero =>
      simp only [List.getElem?_cons_zero, Option.some.injEq] at h
      subst h
      simp
    | succ j =>
      simp only [List.getElem?_cons_succ] at h
      simp [ih j h]

theorem step_thread_inv (κ : Kind) (hκ : κ ≠ Kind.write_other) (v : Nat) (es : List Event)
    (i : Nat) (c : Config) (h : interleave_inv κ v es c) :
    interleave_inv κ v es (step_thread i c) := by
  obtain ⟨hmap, hprobe, hloc⟩ := h
  unfold step_thread
  cases hi : c.threads[i]? with
  | none => exact ⟨hmap, hprobe, hloc⟩
  | some t =>
    obtain ⟨e, pc⟩ := t
    have hmem : (e, pc) ∈ c.threads := List.getElem?_mem hi
    obtain ⟨d, hd, hp, hl1, hl2⟩ :=
      micro_step_inv κ hκ e pc c.state v (done_count κ c.threads) hprobe
        (hloc (e, pc) hmem).1 (hloc (e, pc) hmem).2
    refine ⟨?_, ?_, ?_⟩
    · show (c.threads.set i (e, (micro_step e pc c.state).1)).map Prod.fst = es
      rw [map_fst_set c.threads i (e, pc) _ hi, hmap]
    · show probe κ (micro_step e pc c.state).2 =
        some ((v + done_count κ (c.threads.set i (e, (micro_step e pc c.state).1))) % U64_MOD)
      have hsum := sum_map_set (counted κ) c.threads i (e, pc)
        (e, (micro_step e pc c.state).1) hi
      have hcount : done_count κ (c.threads.set i (e, (micro_step e pc c.state).1)) =
          done_count κ c.threads + d := by
        unfold done_count
        omega
      rw [hcount]
      exact hp
    · intro t ht
      rcases List.mem_or_eq_of_mem_set ht with h | h
      · exact hloc t h
      · rw [h]
        exact ⟨hl1, hl2⟩

theorem interleave_keeps_inv (κ : Kind) (hκ : κ ≠ Kind.write_other) (v : Nat) (es : List Event)
    (sched : List Nat) (c : Config) (h : interleave_inv κ v es c) :
    interleave_inv κ v es (interleave sched c) := by
  induction sched generalizing c with
  | nil => exact h
  | cons i rest ih => exact ih _ (step_thread_inv κ hκ v es i c h)

theorem done_count_spawn (κ : Kind) (es : List Event) :
    done_count κ (es.map (fun e => (e, Pc.entry))) = 0 := by
  induction es with
  | nil => rfl
  | cons e rest ih =>
    unfold done_count at ih
    simp only [done_count, List.map_cons, List.sum_cons, ih]
    simp [counted]

theorem spawn_inv (κ : Kind) (v : Nat) (hv : v < 2 ^ 64) (es : List Event) (s : State)
    (hp : probe κ s = some v) : interleave_inv κ v es (spawn es s) := by
  refine ⟨?_, ?_, ?_⟩
  · simp [spawn, List.map_map, Function.comp_def]
  · show probe κ s = some ((v + done_count κ (es.map (fun e => (e, Pc.entry)))) % U64_MOD)
    rw [done_count_spawn, Nat.add_zero, Nat.mod_eq_of_lt (by unfold U64_MOD; exact hv)]
    exact hp
  · intro t ht
    simp only [spawn, List.mem_map] at ht
    obtain ⟨e, _, rfl⟩ := ht
    exact ⟨fun _ => by simp, fun _ => Or.inl rfl⟩

theorem done_count_finished (κ : Kind) (ts : List (Event × Pc))
    (h : ∀ t ∈ ts, t.2 = Pc.done) : done_count κ ts = count_kind κ (ts.map Prod.fst) := by
  induction ts with
  | nil => rfl
  | cons t rest ih =>
    have hrest := ih (fun u hu => h u (List.mem_cons_of_mem _ hu))
    have ht := h t (List.mem_cons_self _ _)
    unfold done_count at hrest
    simp only [done_count, List.map_cons, List.sum_cons, count_kind_cons, hrest]
    simp only [counted, ht, and_true]
    omega

/-- Any interleaving of the helper calls of the invocations `es` that lets
them all return leaves the key of kind `κ`, present with value `v` at the
start, at `v` plus the number of invocations of that kind, in `__u64`
arithmetic. -/
theorem interleave_no_lost_update (κ : Kind) (hκ : κ ≠ Kind.write_other) (es : List Event)
    (s : State) (v : Nat) (sched : List Nat) (hv : v < 2 ^ 64) (hp : probe κ s = some v)
    (hfin : finished (interleave sched (spawn es s))) :
    probe κ (interleave sched (spawn es s)).state = some ((v + count_kind κ es) % 2 ^ 64) := by
  obtain ⟨hmap, hprobe, _⟩ :=
    interleave_keeps_inv κ hκ v es sched (spawn es s) (spawn_inv κ v hv es s hp)
  rw [done_count_finished κ _ hfin, hmap] at hprobe
  exact hprobe

/-- Run alone, an invocation is through after three helper calls and has
done what the hook does. -/
theorem micro_step_sequential (e : Event) (s : State) :
    micro_step e (micro_step e (micro_step e Pc.entry s).1 (micro_step e Pc.entry s).2).1
        (micro_step e (micro_step e Pc.entry s).1 (micro_step e Pc.entry s).2).2 =
      (Pc.done, (step e s).2) := by
  cases e with
  | connect ctx =>
    show _ = (Pc.done, (kprobe_tcp_v4_connect ctx s).2)
    cases hl : bpf_map_lookup_elem s.tcp_metrics 1 <;>
      simp [micro_step, lookup_outcome, hook_table, hook_key, set_hook_table,
        kprobe_tcp_v4_connect, hl]
  | accept ctx =>
    show _ = (Pc.done, (kprobe_inet_csk_accept ctx s).2)
    cases hl : bpf_map_lookup_elem s.tcp_metrics 2 <;>
      simp [micro_step, lookup_outcome, hook_table, hook_key, set_hook_table,
        kprobe_inet_csk_accept, hl]
  | write mem ctx =>
    by_cases hg : reads_GET mem ctx
    · have hk : kind (Event.write mem ctx) = Kind.write_GET := by simp [kind, hg]
      have hs : step (Event.write mem ctx) s =
          (0, { s with http_metrics := counter_bump s.http_metrics 1 }) :=
        write_eq_of_GET mem ctx s hg
      rw [micro_step_entry, hk, hs]
      cases hl : bpf_map_lookup_elem s.http_metrics 1 <;>
        simp [micro_step, lookup_outcome, hook_table, hook_key, set_hook_table,
          counter_bump, hl]
    · have hk : kind (Event.write mem ctx) = Kind.write_other := by simp [kind, hg]
      have hs : step (Event.write mem ctx) s = (0, s) := write_eq_of_not_GET mem ctx s hg
      rw [micro_step_entry, hk, hs]
      simp [micro_step]

theorem lookup_outcome_rank (e : Event) (s : State) : (lookup_outcome e s).rank = 1 := by
  unfold lookup_outcome
  cases bpf_map_lookup_elem (hook_table e s) (hook_key e) <;> rfl

theorem micro_step_rank (e : Event) (pc : Pc) (s : State) :
    (micro_step e pc s).1.rank ≤ pc.rank - 1 := by
  cases pc with
  | entry =>
    rw [micro_step_entry]
    cases kind e with
    | connect =>
      show (lookup_outcome e s).rank ≤ 3 - 1
      rw [lookup_outcome_rank]
      decide
    | accept =>
      show (lookup_outcome e s).rank ≤ 3 - 1
      rw [lookup_outcome_rank]
      decide
    | write_GET => exact Nat.le_refl 2
    | write_other => exact Nat.zero_le _
  | matched =>
    show (lookup_outcome e s).rank ≤ 2 - 1
    rw [lookup_outcome_rank]
  | found => exact Nat.zero_le _
  | missing => exact Nat.zero_le _
  | done => exact Nat.zero_le _

theorem step_thread_rank (j : Nat) (c : Config) (i : Nat) (t0 : Event × Pc)
    (h : c.threads[i]? = some t0) :
    ∃ t1, (step_thread j c).threads[i]? = some t1 ∧
      t1.2.rank ≤ t0.2.rank - (if j = i then 1 else 0) := by
  unfold step_thread
  cases hj : c.threads[j]? with
  | none =>
    have hji : j ≠ i := by
      intro hji
      subst hji
      rw [hj] at h
      exact Option.noConfusion h
    exact ⟨t0, h, by simp [hji]⟩
  | some t =>
    by_cases hji : j = i
    · subst hji
      rw [hj] at h
      have ht : t = t0 := Option.some.inj h
      subst ht
      have hlt : j < c.threads.length := (List.getElem?_eq_some.mp hj).1
      refine ⟨(t.1, (micro_step t.1 t.2 c.state).1), ?_, ?_⟩
      · show (c.threads.set j (t.1, (micro_step t.1 t.2 c.state).1))[j]? = _
        rw [List.getElem?_set, if_pos rfl, if_pos hlt]
      · simpa using micro_step_rank t.1 t.2 c.state
    · refine ⟨t0, ?_, by simp [hji]⟩
      show (c.threads.set j (t.1, (micro_step t.1 t.2 c.state).1))[i]? = _
      rw [List.getElem?_set_ne hji, h]

theorem interleave_rank (sched : List Nat) (c : Config) (i : Nat) (t0 : Event × Pc)
    (h : c.threads[i]? = some t0) :
    ∃ t1, (interleave sched c).threads[i]? = some t1 ∧
      t1.2.rank ≤ t0.2.rank - sched.count i := by
  induction sched generalizing c t0 with
  | nil => exact ⟨t0, h, by simp⟩
  | cons j rest ih =>
    obtain ⟨t1, h1, hr1⟩ := step_thread_rank j c i t0 h
    obtain ⟨t2, h2, hr2⟩ := ih (step_thread j c) t1 h1
    refine ⟨t2, h2, ?_⟩
    rw [List.count_cons]
    by_cases hji : j = i
    · simp only [hji, if_true] at hr1
      simp only [hji, beq_self_eq_true, if_true]
      omega
    · simp only [hji, if_false] at hr1
      have hb : (j == i) = false := by simpa using hji
      simp only [hb, Bool.false_eq_true, if_false]
      omega

theorem step_thread_length (j : Nat) (c : Config) :
    (step_thread j c).threads.length = c.threads.length := by
  unfold step_thread
  cases c.threads[j]? <;> simp

theorem interleave_length (sched : List Nat) (c : Config) :
    (interleave sched c).threads.length = c.threads.length := by
  induction sched generalizing c with
  | nil => rfl
  | cons j rest ih =>
    show (interleave rest (step_thread j c)).threads.length = _
    rw [ih, step_thread_length]

/-- A schedule that names every invocation at least three times lets them
all return. -/
theorem fair_schedule_finishes (es : List Event) (s : State) (sched : List Nat)
    (hfair : ∀ i, i < es.length → 3 ≤ sched.count i) :
    finished (interleave sched (spawn es s)) := by
  intro t ht
  obtain ⟨i, hi⟩ := List.mem_iff_getElem?.mp ht
  have hlt : i < (interleave sched (spawn es s)).threads.length :=
    (List.getElem?_eq_some.mp hi).1
  rw [interleave_length] at hlt
  have hlen : (spawn es s).threads.length = es.length := by simp [spawn]
  rw [hlen] at hlt
  have h0 : (spawn es s).threads[i]? = some (es[i], Pc.entry) := by
    simp [spawn, hlt]
  obtain ⟨t1, h1, hr⟩ := interleave_rank sched (spawn es s) i _ h0
  rw [hi] at h1
  have ht1 : t = t1 := Option.some.inj h1
  subst ht1
  have h3 := hfair i hlt
  have hr2 : t.2.rank ≤ 3 - sched.count i := hr
  have hz : t.2.rank = 0 := by omega
  cases hpc : t.2 with
  | done => rfl
  | entry => rw [hpc] at hz; simp [Pc.rank] at hz
  | matched => rw [hpc] at hz; simp [Pc.rank] at hz
  | found => rw [hpc] at hz; simp [Pc.rank] at hz
  | missing => rw [hpc] at hz; simp [Pc.rank] at hz

/-! ## Claims -/

/-- C1 (as stated it fails): after `2 ^ 64` successive runs of
`kprobe_tcp_v4_connect` from empty tables, key 1 of `tcp_metrics` is mapped
to 0, not to `2 ^ 64`: the `__u64` counter has wrapped. -/
theorem C1_connect_count_wraps :
    bpf_map_lookup_elem
        (run ((List.replicate (2 ^ 64) 0).map Event.connect) State.empty).tcp_metrics 1 = some 0 ∧
      bpf_map_lookup_elem
        (run ((List.replicate (2 ^ 64) 0).map Event.connect) State.empty).tcp_metrics 1
        ≠ some (2 ^ 64) := by
  have hlen : (List.replicate (2 ^ 64) 0).length = 2 ^ 64 := List.length_replicate _ _
  have h := run_connect_empty (List.replicate (2 ^ 64) 0) (by rw [hlen]; decide)
  rw [hlen] at h
  rw [h]
  constructor
  · decide
  · decide

/-- C1 (amended): for every N >= 1, N successive runs of
`kprobe_tcp_v4_connect` from two empty tables leave `tcp_metrics` holding
key 1 alone, mapped to `N mod 2 ^ 64`; for `N < 2 ^ 64` that is exactly N. -/
theorem C1_connect_count (cs : List Nat) (h1 : 1 ≤ cs.length) :
    (run (cs.map Event.connect) State.empty).tcp_metrics = [(1, cs.length % 2 ^ 64)] ∧
      bpf_map_lookup_elem (run (cs.map Event.connect) State.empty).tcp_metrics 1
        = some (cs.length % 2 ^ 64) ∧
      (cs.length < 2 ^ 64 →
        bpf_map_lookup_elem (run (cs.map Event.connect) State.empty).tcp_metrics 1
          = some cs.length) := by
  have h := run_connect_empty cs h1
  have hl : bpf_map_lookup_elem [(1, cs.length % 2 ^ 64)] 1 = some (cs.length % 2 ^ 64) := by
    simp [bpf_map_lookup_elem]
  rw [h]
  refine ⟨rfl, hl, ?_⟩
  intro hlt
  show bpf_map_lookup_elem [(1, cs.length % 2 ^ 64)] 1 = some cs.length
  rw [hl, Nat.mod_eq_of_lt hlt]

/-- Witness of C1: three connects from empty tables give `get(connect) = 3`. -/
theorem C1_connect_count_witness :
    1 ≤ [10, 11, 12].length ∧
      bpf_map_lookup_elem
        (run ([10, 11, 12].map Event.connect) State.empty).tcp_metrics 1 = some 3 :=
  ⟨by decide, (C1_connect_count [10, 11, 12] (by decide)).2.2 (by decide)⟩

/-- C2 (as stated it fails): with key 1 of `http_metrics` at the largest
`__u64` value `v = 2 ^ 64 - 1`, a write whose first four bytes are
`G`, `E`, `T`, space leaves key 1 at 0, not at `v + 1`. -/
theorem C2_get_increment_wraps :
    reads_GET (mem_of_bytes 4096 [71, 69, 84, 32]) ⟨0, 1, 3, 4096, 4⟩ ∧
      bpf_map_lookup_elem (⟨[], [(1, 2 ^ 64 - 1)]⟩ : State).http_metrics 1
        = some (2 ^ 64 - 1) ∧
      bpf_map_lookup_elem
        (tracepoint_sys_enter_write (mem_of_bytes 4096 [71, 69, 84, 32]) ⟨0, 1, 3, 4096, 4⟩
          ⟨[], [(1, 2 ^ 64 - 1)]⟩).2.http_metrics 1 = some 0 ∧
      bpf_map_lookup_elem
        (tracepoint_sys_enter_write (mem_of_bytes 4096 [71, 69, 84, 32]) ⟨0, 1, 3, 4096, 4⟩
          ⟨[], [(1, 2 ^ 64 - 1)]⟩).2.http_metrics 1 ≠ some (2 ^ 64 - 1 + 1) := by
  refine ⟨by decide, by decide, by decide, by decide⟩

/-- C2 (amended): for every state and every write event whose 4-byte user
read succeeds with the bytes `G`, `E`, `T`, space,
`tracepoint_sys_enter_write` returns 0 and increments get(GET) by one in
`__u64` arithmetic: key 1 present with value v becomes `(v + 1) mod 2 ^ 64`
(that is `v + 1` unless `v = 2 ^ 64 - 1`), and key 1 absent in a table with
room becomes present with value 1 (it stays absent in a full table). -/
theorem C2_get_increment (mem : UserMem) (ctx : WriteCtx) (s : State)
    (h : reads_GET mem ctx) :
    (tracepoint_sys_enter_write mem ctx s).1 = 0 ∧
      bpf_map_lookup_elem (tracepoint_sys_enter_write mem ctx s).2.http_metrics 1 =
        match bpf_map_lookup_elem s.http_metrics 1 with
        | some v => some ((v + 1) % 2 ^ 64)
        | none => if s.http_metrics.length < max_entries then some 1 else none := by
  rw [write_eq_of_GET mem ctx s h]
  refine ⟨rfl, ?_⟩
  show bpf_map_lookup_elem (counter_bump s.http_metrics 1) 1 = _
  cases hl : bpf_map_lookup_elem s.http_metrics 1 with
  | some v =>
    rw [counter_bump_present _ _ v hl, lookup_sync_fetch_and_add_self _ _ _ v hl]
    rfl
  | none =>
    by_cases hroom : s.http_metrics.length < max_entries
    · rw [counter_bump_absent_room _ _ hl hroom, lookup_append_single _ _ _ _ hl]
      simp [hroom]
    · rw [counter_bump_absent_full _ _ hl (Nat.le_of_not_lt hroom), hl]
      simp [hroom]

/-- Witness of C2: a write of "GET /x" with get(GET) = 41 makes it 42. -/
theorem C2_get_increment_witness :
    reads_GET (mem_of_bytes 4096 [71, 69, 84, 32, 47, 120]) ⟨0, 1, 3, 4096, 6⟩ ∧
      bpf_map_lookup_elem
        (tracepoint_sys_enter_write (mem_of_bytes 4096 [71, 69, 84, 32, 47, 120])
          ⟨0, 1, 3, 4096, 6⟩ ⟨[(1, 5)], [(1, 41)]⟩).2.http_metrics 1 = some 42 :=
  ⟨by decide,
    (C2_get_increment (mem_of_bytes 4096 [71, 69, 84, 32, 47, 120]) ⟨0, 1, 3, 4096, 6⟩
      ⟨[(1, 5)], [(1, 41)]⟩ (by decide)).2⟩

/-- C3: for every state and every write event whose 4-byte user read
succeeds with any four bytes other than `G`, `E`, `T`, space,
`tracepoint_sys_enter_write` takes no action: it returns 0 and both tables
are identical before and after. -/
theorem C3_other_bytes_no_action (mem : UserMem) (ctx : WriteCtx) (s : State)
    (p : Nat × Nat × Nat × Nat)
    (hread : bpf_probe_read_user mem ctx.buf = (0, p))
    (hp : p ≠ (71, 69, 84, 32)) :
    tracepoint_sys_enter_write mem ctx s = (0, s) ∧
      (tracepoint_sys_enter_write mem ctx s).2.http_metrics = s.http_metrics ∧
      (tracepoint_sys_enter_write mem ctx s).2.tcp_metrics = s.tcp_metrics := by
  have hn : ¬ reads_GET mem ctx := by
    unfold reads_GET
    rw [hread]
    intro heq
    exact hp (Prod.mk.inj heq).2
  rw [write_eq_of_not_GET mem ctx s hn]
  exact ⟨rfl, rfl, rfl⟩

/-- Witness of C3: a write of "GETX" changes nothing. -/
theorem C3_other_bytes_no_action_witness :
    bpf_probe_read_user (mem_of_bytes 4096 [71, 69, 84, 88]) 4096 = (0, (71, 69, 84, 88)) ∧
      tracepoint_sys_enter_write (mem_of_bytes 4096 [71, 69, 84, 88]) ⟨0, 1, 3, 4096, 4⟩
        ⟨[(1, 5)], [(1, 41)]⟩ = (0, ⟨[(1, 5)], [(1, 41)]⟩) :=
  ⟨by decide,
    (C3_other_bytes_no_action (mem_of_bytes 4096 [71, 69, 84, 88]) ⟨0, 1, 3, 4096, 4⟩
      ⟨[(1, 5)], [(1, 41)]⟩ (71, 69, 84, 88) (by decide) (by decide)).1⟩

/-- C4: for every state and every write event whose 4-byte user read fails
(`bpf_probe_read_user` returns non-zero), `tracepoint_sys_enter_write`
aborts the classification: no table entry is created or changed and the hook
still returns status 0. -/
theorem C4_failed_read_no_action (mem : UserMem) (ctx : WriteCtx) (s : State)
    (hfail : (bpf_probe_read_user mem ctx.buf).1 ≠ 0) :
    (tracepoint_sys_enter_write mem ctx s).1 = 0 ∧
      (tracepoint_sys_enter_write mem ctx s).2 = s := by
  have hn : ¬ reads_GET mem ctx := by
    unfold reads_GET
    intro heq
    rw [heq] at hfail
    exact hfail rfl
  rw [write_eq_of_not_GET mem ctx s hn]
  exact ⟨rfl, rfl⟩

/-- Witness of C4: only three bytes `G`, `E`, `T` are accessible at the
buffer address, the read fails and nothing is counted. -/
theorem C4_failed_read_no_action_witness :
    (bpf_probe_read_user (mem_of_bytes 4096 [71, 69, 84]) 4096).1 ≠ 0 ∧
      (tracepoint_sys_enter_write (mem_of_bytes 4096 [71, 69, 84]) ⟨0, 1, 3, 4096, 3⟩
        ⟨[(1, 5)], [(1, 41)]⟩).1 = 0 ∧
      (tracepoint_sys_enter_write (mem_of_bytes 4096 [71, 69, 84]) ⟨0, 1, 3, 4096, 3⟩
        ⟨[(1, 5)], [(1, 41)]⟩).2 = ⟨[(1, 5)], [(1, 41)]⟩ :=
  ⟨by decide,
    C4_failed_read_no_action (mem_of_bytes 4096 [71, 69, 84]) ⟨0, 1, 3, 4096, 3⟩
      ⟨[(1, 5)], [(1, 41)]⟩ (by decide)⟩

/-- C6: classifier independence. For every state, `kprobe_inet_csk_accept`
leaves the lookup result of key 1 (connect) in `tcp_metrics` unchanged,
`kprobe_tcp_v4_connect` leaves the lookup result of key 2 (accept)
unchanged, and both TCP hooks leave `http_metrics` unchanged. -/
theorem C6_classifier_independence (ctx : Nat) (s : State) :
    bpf_map_lookup_elem (kprobe_inet_csk_accept ctx s).2.tcp_metrics 1 =
        bpf_map_lookup_elem s.tcp_metrics 1 ∧
      bpf_map_lookup_elem (kprobe_tcp_v4_connect ctx s).2.tcp_metrics 2 =
        bpf_map_lookup_elem s.tcp_metrics 2 ∧
      (kprobe_tcp_v4_connect ctx s).2.http_metrics = s.http_metrics ∧
      (kprobe_inet_csk_accept ctx s).2.http_metrics = s.http_metrics := by
  rw [connect_eq, accept_eq]
  refine ⟨?_, ?_, rfl, rfl⟩
  · exact lookup_counter_bump_ne s.tcp_metrics 2 1 (by decide)
  · exact lookup_counter_bump_ne s.tcp_metrics 1 2 (by decide)

/-- C7 (as stated it fails): with key 1 of `tcp_metrics` at the 64-bit value
`2 ^ 64 - 1`, one run of `kprobe_tcp_v4_connect` leaves it at 0, so the value
afterwards is not `>=` the value before: get(connect) has reset. -/
theorem C7_count_resets_at_max :
    bpf_map_lookup_elem (⟨[(1, 2 ^ 64 - 1)], []⟩ : State).tcp_metrics 1 = some (2 ^ 64 - 1) ∧
      bpf_map_lookup_elem
        (kprobe_tcp_v4_connect 0 ⟨[(1, 2 ^ 64 - 1)], []⟩).2.tcp_metrics 1 = some 0 ∧
      ¬ ∃ w, bpf_map_lookup_elem
          (kprobe_tcp_v4_connect 0 ⟨[(1, 2 ^ 64 - 1)], []⟩).2.tcp_metrics 1 = some w ∧
        2 ^ 64 - 1 ≤ w := by
  have h : bpf_map_lookup_elem
      (kprobe_tcp_v4_connect 0 ⟨[(1, 2 ^ 64 - 1)], []⟩).2.tcp_metrics 1 = some 0 := by decide
  refine ⟨by decide, h, ?_⟩
  rintro ⟨w, hw, hle⟩
  rw [h] at hw
  have hw0 : 0 = w := Option.some.inj hw
  omega

/-- C7 (amended): monotonicity up to wrap-around. For every state, every hook
invocation (connect, accept, or write with any read outcome) and every key
of either table, if the key is present with 64-bit value v before the
invocation then it is still present afterwards, with a value `>= v` unless
`v = 2 ^ 64 - 1`, in which case the value afterwards is v or 0. -/
theorem C7_monotone_until_wrap (e : Event) (s : State) (k v : Nat) (hv : v < 2 ^ 64) :
    (bpf_map_lookup_elem s.tcp_metrics k = some v →
        ∃ w, bpf_map_lookup_elem (step e s).2.tcp_metrics k = some w ∧
          (v ≤ w ∨ (v = 2 ^ 64 - 1 ∧ w = 0))) ∧
      (bpf_map_lookup_elem s.http_metrics k = some v →
        ∃ w, bpf_map_lookup_elem (step e s).2.http_metrics k = some w ∧
          (v ≤ w ∨ (v = 2 ^ 64 - 1 ∧ w = 0))) := by
  have key_fact : ∀ (m : BpfMap) (key : Nat), bpf_map_lookup_elem m k = some v →
      ∃ w, bpf_map_lookup_elem (counter_bump m key) k = some w ∧
        (v ≤ w ∨ (v = 2 ^ 64 - 1 ∧ w = 0)) := by
    intro m key hm
    obtain ⟨w, hw, hcase⟩ := lookup_counter_bump_present m key k v hm
    refine ⟨w, hw, ?_⟩
    rcases hcase with rfl | rfl
    · exact Or.inl (Nat.le_refl _)
    · by_cases hmax : v = 2 ^ 64 - 1
      · right
        refine ⟨hmax, ?_⟩
        rw [hmax]
        decide
      · left
        have : (v + 1) % U64_MOD = v + 1 := Nat.mod_eq_of_lt (by unfold U64_MOD; omega)
        omega
  have same : ∀ (m : BpfMap), bpf_map_lookup_elem m k = some v →
      ∃ w, bpf_map_lookup_elem m k = some w ∧ (v ≤ w ∨ (v = 2 ^ 64 - 1 ∧ w = 0)) :=
    fun m hm => ⟨v, hm, Or.inl (Nat.le_refl _)⟩
  rcases step_eq e s with h0 | h1 | h2 | h3
  · rw [h0]; exact ⟨same _, same _⟩
  · rw [h1]; exact ⟨key_fact _ 1, same _⟩
  · rw [h2]; exact ⟨key_fact _ 2, same _⟩
  · rw [h3]; exact ⟨same _, key_fact _ 1⟩

/-- Witness of C7: a connect with get(connect) = 5 leaves key 1 present with
a value of at least 5. -/
theorem C7_monotone_until_wrap_witness :
    5 < 2 ^ 64 ∧ bpf_map_lookup_elem (⟨[(1, 5)], [(1, 41)]⟩ : State).tcp_metrics 1 = some 5 ∧
      ∃ w, bpf_map_lookup_elem
          (step (Event.connect 0) ⟨[(1, 5)], [(1, 41)]⟩).2.tcp_metrics 1 = some w ∧
        (5 ≤ w ∨ (5 = 2 ^ 64 - 1 ∧ w = 0)) :=
  ⟨by decide, by decide,
    (C7_monotone_until_wrap (Event.connect 0) ⟨[(1, 5)], [(1, 41)]⟩ 1 5 (by decide)).1
      (by decide)⟩

/-- C8 (as stated it fails): the state whose `tcp_metrics` maps key 1 to
`2 ^ 64 - 1` has every count `>= 1`, yet after one run of
`kprobe_tcp_v4_connect` key 1 is present with count 0. -/
theorem C8_zero_entry_after_wrap :
    (⟨[(1, 2 ^ 64 - 1)], []⟩ : State).counts_positive ∧
      ¬ (kprobe_tcp_v4_connect 0 ⟨[(1, 2 ^ 64 - 1)], []⟩).2.counts_positive ∧
      (kprobe_tcp_v4_connect 0 ⟨[(1, 2 ^ 64 - 1)], []⟩).2.tcp_metrics = [(1, 0)] := by
  refine ⟨by decide, by decide, by decide⟩

/-- C8 (amended): the predicate "every key present in `tcp_metrics` and in
`http_metrics` has a count `>= 1`" holds for the empty tables and is
preserved by every invocation of each of the three hooks, except an
invocation that increments a counter standing at `2 ^ 64 - 1`, which leaves
that counter at zero (an invocation is safe when it is a write that does not
read "GET ", or when the count under the hook's own key is absent or below
`2 ^ 64 - 1`). So a state reached from the empty tables has no zero-valued
entry exactly when no key has been counted a positive multiple of `2 ^ 64`
times. -/
theorem C8_counts_positive :
    State.empty.counts_positive ∧
      (∀ (e : Event) (s : State), s.counts_positive →
        (kind e = Kind.write_other ∨ count_below_max (hook_table e s) (hook_key e)) →
        (step e s).2.counts_positive) ∧
      (∀ (e : Event) (s : State), kind e ≠ Kind.write_other →
        bpf_map_lookup_elem (hook_table e s) (hook_key e) = some (2 ^ 64 - 1) →
        ¬ (step e s).2.counts_positive) ∧
      (∀ es : List Event, (run es State.empty).counts_positive ↔
        ∀ κ, κ ≠ Kind.write_other → count_kind κ es = 0 ∨ count_kind κ es % 2 ^ 64 ≠ 0) :=
  ⟨by decide, step_counts_positive, step_not_counts_positive, run_empty_counts_positive_iff⟩

/-- Witness of C8: with get(connect) = 5 and get(accept) = `2 ^ 64 - 1` a
connect keeps every count `>= 1`, and so does the run of a connect and a
write of "GET " from empty tables. -/
theorem C8_counts_positive_witness :
    (⟨[(1, 5), (2, 2 ^ 64 - 1)], [(1, 41)]⟩ : State).counts_positive ∧
      count_below_max
        (hook_table (Event.connect 0) ⟨[(1, 5), (2, 2 ^ 64 - 1)], [(1, 41)]⟩)
        (hook_key (Event.connect 0)) ∧
      (step (Event.connect 0) ⟨[(1, 5), (2, 2 ^ 64 - 1)], [(1, 41)]⟩).2.counts_positive ∧
      (run [Event.connect 0,
          Event.write (mem_of_bytes 4096 [71, 69, 84, 32]) ⟨0, 1, 3, 4096, 4⟩]
        State.empty).counts_positive :=
  ⟨by decide, by decide,
    C8_counts_positive.2.1 (Event.connect 0) ⟨[(1, 5), (2, 2 ^ 64 - 1)], [(1, 41)]⟩
      (by decide) (Or.inr (by decide)),
    (C8_counts_positive.2.2.2 _).mpr (fun κ _ => by cases κ <;> decide)⟩

/-- C9: overflow policy. For every hook and every state in which the hook's
table already holds `max_entries` = 1024 elements and does not contain the
hook's key, the insertion is dropped silently: the hook returns 0, both
tables are unchanged and the lookup of that key still returns absent. -/
theorem C9_full_table_insert_dropped (e : Event) (s : State)
    (hfull : (hook_table e s).length = 1024)
    (habsent : bpf_map_lookup_elem (hook_table e s) (hook_key e) = none) :
    step e s = (0, s) ∧
      bpf_map_lookup_elem (hook_table e (step e s).2) (hook_key e) = none := by
  have hcap : ∀ m : BpfMap, m.length = 1024 → max_entries ≤ m.length := by
    intro m hm
    rw [hm]
    decide
  have hstep : step e s = (0, s) := by
    cases e with
    | connect ctx =>
      have hb : counter_bump s.tcp_metrics 1 = s.tcp_metrics :=
        counter_bump_absent_full _ _ habsent (hcap _ hfull)
      show kprobe_tcp_v4_connect ctx s = (0, s)
      rw [connect_eq, hb]
    | accept ctx =>
      have hb : counter_bump s.tcp_metrics 2 = s.tcp_metrics :=
        counter_bump_absent_full _ _ habsent (hcap _ hfull)
      show kprobe_inet_csk_accept ctx s = (0, s)
      rw [accept_eq, hb]
    | write mem ctx =>
      have hb : counter_bump s.http_metrics 1 = s.http_metrics :=
        counter_bump_absent_full _ _ habsent (hcap _ hfull)
      show tracepoint_sys_enter_write mem ctx s = (0, s)
      by_cases h : reads_GET mem ctx
      · rw [write_eq_of_GET mem ctx s h, hb]
      · exact write_eq_of_not_GET mem ctx s h
  rw [hstep]
  exact ⟨rfl, habsent⟩

set_option maxRecDepth 100000 in
/-- Witness of C9: `tcp_metrics` holds the 1024 keys 3, ..., 1026; a connect
(key 1) is dropped. -/
theorem C9_full_table_insert_dropped_witness :
    (hook_table (Event.connect 0) ⟨(List.range 1024).map (fun i => (i + 3, 1)), []⟩).length
        = 1024 ∧
      bpf_map_lookup_elem
        (hook_table (Event.connect 0) ⟨(List.range 1024).map (fun i => (i + 3, 1)), []⟩)
        (hook_key (Event.connect 0)) = none ∧
      step (Event.connect 0) ⟨(List.range 1024).map (fun i => (i + 3, 1)), []⟩ =
        (0, ⟨(List.range 1024).map (fun i => (i + 3, 1)), []⟩) :=
  ⟨by decide, by decide,
    (C9_full_table_insert_dropped (Event.connect 0)
      ⟨(List.range 1024).map (fun i => (i + 3, 1)), []⟩ (by decide) (by decide)).1⟩

/-- C10 (the code breaks it): the example scenario run as real system
calls. From empty tables, three connects, two accepts, a `write(3, 4096, 6)`
whose buffer holds "GET /x" and a `write(3, 8192, 6)` whose buffer holds
"PUT /x" end with `tcp_metrics` exactly {1: 3, 2: 2} but with `http_metrics`
empty, not {1: 1}: the hook reads its four bytes at address 3, the
descriptor, where nothing is accessible. -/
theorem C10_example_scenario_misses_GET :
    run [Event.connect 0, Event.connect 0, Event.connect 0,
        Event.accept 0, Event.accept 0,
        sys_write (mem_of_bytes 4096 [71, 69, 84, 32, 47, 120]) 3 4096 6,
        sys_write (mem_of_bytes 8192 [80, 85, 84, 32, 47, 120]) 3 8192 6]
      State.empty = ⟨[(1, 3), (2, 2)], []⟩ ∧
      bpf_map_lookup_elem
        (run [Event.connect 0, Event.connect 0, Event.connect 0,
            Event.accept 0, Event.accept 0,
            sys_write (mem_of_bytes 4096 [71, 69, 84, 32, 47, 120]) 3 4096 6,
            sys_write (mem_of_bytes 8192 [80, 85, 84, 32, 47, 120]) 3 8192 6]
          State.empty).http_metrics 1 = none := by
  refine ⟨by decide, by decide⟩

/-- C11: closed key enumeration. In every state reached from the empty
tables by a finite sequence of hook invocations, the keys present in
`tcp_metrics` are among 1 and 2 and the keys present in `http_metrics` are
among 1 (a lookup of any other key is absent); hence `tcp_metrics` holds at
most 2 entries, `http_metrics` at most 1, and neither reaches the capacity
of 1024 entries. -/
theorem C11_closed_key_enumeration (es : List Event) :
    (∀ k ∈ keys (run es State.empty).tcp_metrics, k = 1 ∨ k = 2) ∧
      (∀ k ∈ keys (run es State.empty).http_metrics, k = 1) ∧
      (∀ k, k ≠ 1 → k ≠ 2 → bpf_map_lookup_elem (run es State.empty).tcp_metrics k = none) ∧
      (∀ k, k ≠ 1 → bpf_map_lookup_elem (run es State.empty).http_metrics k = none) ∧
      (run es State.empty).tcp_metrics.length ≤ 2 ∧
      (run es State.empty).http_metrics.length ≤ 1 ∧
      (run es State.empty).tcp_metrics.length < max_entries ∧
      (run es State.empty).http_metrics.length < max_entries := by
  have hclosed : (run es State.empty).closed_keys := run_closed_keys es State.empty (by decide)
  have hlen := closed_keys_length _ hclosed
  obtain ⟨_, h2, _, h4⟩ := hclosed
  refine ⟨h2, h4, ?_, ?_, hlen.1, hlen.2, ?_, ?_⟩
  · intro k hk1 hk2
    rw [lookup_eq_none_iff]
    intro hk
    rcases h2 k hk with h | h
    · exact hk1 h
    · exact hk2 h
  · intro k hk1
    rw [lookup_eq_none_iff]
    intro hk
    exact hk1 (h4 k hk)
  · unfold max_entries; omega
  · unfold max_entries; omega

/-- C12 (as stated it fails): with key 2 of `tcp_metrics` at the largest
`__u64` value `v = 2 ^ 64 - 1`, one run of `kprobe_inet_csk_accept` leaves
key 2 at 0, not at `v + 1`. -/
theorem C12_accept_increment_wraps :
    bpf_map_lookup_elem (⟨[(2, 2 ^ 64 - 1)], []⟩ : State).tcp_metrics 2
        = some (2 ^ 64 - 1) ∧
      bpf_map_lookup_elem
        (kprobe_inet_csk_accept 0 ⟨[(2, 2 ^ 64 - 1)], []⟩).2.tcp_metrics 2 = some 0 ∧
      bpf_map_lookup_elem
        (kprobe_inet_csk_accept 0 ⟨[(2, 2 ^ 64 - 1)], []⟩).2.tcp_metrics 2
        ≠ some (2 ^ 64 - 1 + 1) := by
  refine ⟨by decide, by decide, by decide⟩

/-- C12 (amended): for every state, `kprobe_inet_csk_accept` ignores its
context argument, returns 0 and unconditionally increments category accept
in `__u64` arithmetic: key 2 present in `tcp_metrics` with value v becomes
`(v + 1) mod 2 ^ 64` (that is `v + 1` unless `v = 2 ^ 64 - 1`), and key 2
absent from a table with room becomes present with value 1 (it stays absent
in a full table). -/
theorem C12_accept_increment (ctx ctx2 : Nat) (s : State) :
    (kprobe_inet_csk_accept ctx s).1 = 0 ∧
      kprobe_inet_csk_accept ctx s = kprobe_inet_csk_accept ctx2 s ∧
      bpf_map_lookup_elem (kprobe_inet_csk_accept ctx s).2.tcp_metrics 2 =
        match bpf_map_lookup_elem s.tcp_metrics 2 with
        | some v => some ((v + 1) % 2 ^ 64)
        | none => if s.tcp_metrics.length < max_entries then some 1 else none := by
  rw [accept_eq ctx s, accept_eq ctx2 s]
  refine ⟨rfl, rfl, ?_⟩
  show bpf_map_lookup_elem (counter_bump s.tcp_metrics 2) 2 = _
  cases hl : bpf_map_lookup_elem s.tcp_metrics 2 with
  | some v =>
    rw [counter_bump_present _ _ v hl, lookup_sync_fetch_and_add_self _ _ _ v hl]
    rfl
  | none =>
    by_cases hroom : s.tcp_metrics.length < max_entries
    · rw [counter_bump_absent_room _ _ hl hroom, lookup_append_single _ _ _ _ hl]
      simp [hroom]
    · rw [counter_bump_absent_full _ _ hl (Nat.le_of_not_lt hroom), hl]
      simp [hroom]

/-- C15 (the code breaks it): two write events with the same user memory,
the same buffer address 4096 (holding "PUT ") and the same count, differing
only in the descriptor. With descriptor 70000, an address that holds the
readable bytes `G`, `E`, `T`, space, the write is counted; with descriptor 3
it is not: the outcome of the hook depends on the file descriptor. -/
theorem C15_outcome_depends_on_descriptor :
    step (sys_write (mem_of_regions [(4096, [80, 85, 84, 32]), (70000, [71, 69, 84, 32])])
        70000 4096 4) State.empty = (0, ⟨[], [(1, 1)]⟩) ∧
      step (sys_write (mem_of_regions [(4096, [80, 85, 84, 32]), (70000, [71, 69, 84, 32])])
        3 4096 4) State.empty = (0, ⟨[], []⟩) ∧
      step (sys_write (mem_of_regions [(4096, [80, 85, 84, 32]), (70000, [71, 69, 84, 32])])
        70000 4096 4) State.empty ≠
      step (sys_write (mem_of_regions [(4096, [80, 85, 84, 32]), (70000, [71, 69, 84, 32])])
        3 4096 4) State.empty := by
  refine ⟨by decide, by decide, by decide⟩

/-- C16: for every state and every write event (read failing, matching
"GET " or not matching), `tracepoint_sys_enter_write` leaves `tcp_metrics`
unchanged, every entry of it included: the HTTP classifier only writes
`http_metrics`. -/
theorem C16_write_leaves_tcp (mem : UserMem) (ctx : WriteCtx) (s : State) :
    (tracepoint_sys_enter_write mem ctx s).2.tcp_metrics = s.tcp_metrics ∧
      ∀ k, bpf_map_lookup_elem (tracepoint_sys_enter_write mem ctx s).2.tcp_metrics k =
        bpf_map_lookup_elem s.tcp_metrics k := by
  have h : (tracepoint_sys_enter_write mem ctx s).2.tcp_metrics = s.tcp_metrics := by
    by_cases hg : reads_GET mem ctx
    · rw [write_eq_of_GET mem ctx s hg]
    · rw [write_eq_of_not_GET mem ctx s hg]
  exact ⟨h, fun k => by rw [h]⟩

/-- C14: shared counter update protocol. For every state, the
lookup-then-add-or-insert sequence inlined in each of the three hooks is the
function `increment(table, key)` of the spec (if key exists add 1 to its
value; otherwise attempt to insert key -> 1, a no-op when the table is at
capacity): connect is `increment(tcp_metrics, 1)`, accept is
`increment(tcp_metrics, 2)`, and the write hook on a successful "GET " read
is `increment(http_metrics, 1)`; each returns 0 and leaves the other table
alone. -/
theorem C14_hooks_refine_increment (cx : Nat) (mem : UserMem) (ctx : WriteCtx) (s : State) :
    ((kprobe_tcp_v4_connect cx s).1 = 0 ∧
        counter_table (kprobe_tcp_v4_connect cx s).2.tcp_metrics =
          spec_increment (counter_table s.tcp_metrics) 1 ∧
        (kprobe_tcp_v4_connect cx s).2.http_metrics = s.http_metrics) ∧
      ((kprobe_inet_csk_accept cx s).1 = 0 ∧
        counter_table (kprobe_inet_csk_accept cx s).2.tcp_metrics =
          spec_increment (counter_table s.tcp_metrics) 2 ∧
        (kprobe_inet_csk_accept cx s).2.http_metrics = s.http_metrics) ∧
      (reads_GET mem ctx →
        (tracepoint_sys_enter_write mem ctx s).1 = 0 ∧
        counter_table (tracepoint_sys_enter_write mem ctx s).2.http_metrics =
          spec_increment (counter_table s.http_metrics) 1 ∧
        (tracepoint_sys_enter_write mem ctx s).2.tcp_metrics = s.tcp_metrics) := by
  refine ⟨?_, ?_, ?_⟩
  · rw [connect_eq]
    exact ⟨rfl, counter_table_counter_bump _ 1, rfl⟩
  · rw [accept_eq]
    exact ⟨rfl, counter_table_counter_bump _ 2, rfl⟩
  · intro hg
    rw [write_eq_of_GET mem ctx s hg]
    exact ⟨rfl, counter_table_counter_bump _ 1, rfl⟩

/-- Witness of C14: with get(GET) = 41 a write that reads "GET " is the
spec's increment on `http_metrics` and key 1, and it leaves get(GET) = 42. -/
theorem C14_hooks_refine_increment_witness :
    reads_GET (mem_of_bytes 4096 [71, 69, 84, 32]) ⟨0, 1, 3, 4096, 4⟩ ∧
      counter_table
          (tracepoint_sys_enter_write (mem_of_bytes 4096 [71, 69, 84, 32]) ⟨0, 1, 3, 4096, 4⟩
            ⟨[(1, 5)], [(1, 41)]⟩).2.http_metrics =
        spec_increment (counter_table [(1, 41)]) 1 ∧
      (spec_increment (counter_table [(1, 41)]) 1).get 1 = some 42 :=
  ⟨by decide,
    ((C14_hooks_refine_increment 0 (mem_of_bytes 4096 [71, 69, 84, 32]) ⟨0, 1, 3, 4096, 4⟩
      ⟨[(1, 5)], [(1, 41)]⟩).2.2 (by decide)).2.1,
    by decide⟩

/-- C17: order independence. For every state reached from the empty tables
and every two hook events (connect, accept, or write with any read outcome),
applying them in either order yields the same pair of tables: the same
entries in each map and the same lookup result for every key. Consequently
two finite event sequences from the empty tables with the same number of
events of each kind end in the same pair of tables. -/
theorem C17_order_independence :
    (∀ (es : List Event) (e1 e2 : Event),
        (run [e1, e2] (run es State.empty)).same_tables (run [e2, e1] (run es State.empty)) ∧
        (∀ k, bpf_map_lookup_elem (run [e1, e2] (run es State.empty)).tcp_metrics k =
          bpf_map_lookup_elem (run [e2, e1] (run es State.empty)).tcp_metrics k) ∧
        (∀ k, bpf_map_lookup_elem (run [e1, e2] (run es State.empty)).http_metrics k =
          bpf_map_lookup_elem (run [e2, e1] (run es State.empty)).http_metrics k)) ∧
      (∀ es1 es2 : List Event, (∀ κ, count_kind κ es1 = count_kind κ es2) →
        (run es1 State.empty).same_tables (run es2 State.empty) ∧
        (∀ k, bpf_map_lookup_elem (run es1 State.empty).tcp_metrics k =
          bpf_map_lookup_elem (run es2 State.empty).tcp_metrics k) ∧
        (∀ k, bpf_map_lookup_elem (run es1 State.empty).http_metrics k =
          bpf_map_lookup_elem (run es2 State.empty).http_metrics k)) := by
  have hempty : State.empty.closed_keys := by decide
  constructor
  · intro es e1 e2
    have hswap : ∀ κ, count_kind κ [e1, e2] = count_kind κ [e2, e1] := by
      intro κ
      simp only [count_kind_cons]
      omega
    exact run_same_tables (run es State.empty) (run_closed_keys es State.empty hempty)
      [e1, e2] [e2, e1] (hswap _) (hswap _) (hswap _)
  · intro es1 es2 h
    exact run_same_tables State.empty hempty es1 es2 (h _) (h _) (h _)

/-- Witness of C17: a connect, an accept and a write of "GET " end in the
same tables as the same three kinds of event in the reverse order, and so do
a connect followed by an accept and the two swapped, after an earlier
connect. -/
theorem C17_order_independence_witness :
    (∀ κ, count_kind κ
        [Event.connect 0, Event.accept 0,
          Event.write (mem_of_bytes 4096 [71, 69, 84, 32]) ⟨0, 1, 3, 4096, 4⟩] =
      count_kind κ
        [Event.write (mem_of_bytes 8192 [71, 69, 84, 32]) ⟨0, 1, 5, 8192, 4⟩,
          Event.accept 1, Event.connect 2]) ∧
      (run [Event.connect 0, Event.accept 0,
          Event.write (mem_of_bytes 4096 [71, 69, 84, 32]) ⟨0, 1, 3, 4096, 4⟩]
        State.empty).same_tables
        (run [Event.write (mem_of_bytes 8192 [71, 69, 84, 32]) ⟨0, 1, 5, 8192, 4⟩,
          Event.accept 1, Event.connect 2] State.empty) ∧
      (run [Event.connect 0, Event.accept 0] (run [Event.connect 0] State.empty)).same_tables
        (run [Event.accept 0, Event.connect 0] (run [Event.connect 0] State.empty)) :=
  ⟨fun κ => by cases κ <;> decide,
    (C17_order_independence.2 _ _ (fun κ => by cases κ <;> decide)).1,
    (C17_order_independence.1 [Event.connect 0] (Event.connect 0) (Event.accept 0)).1⟩

/-- C13 (as stated it fails): two invocations of `kprobe_tcp_v4_connect`
run concurrently, both looking key 1 up before either adds, against key 1
present with value `2 ^ 64 - 1`. Both return, and key 1 ends at 1: the count
was not raised by 2. -/
theorem C13_concurrent_increment_wraps :
    finished (interleave [0, 1, 0, 1]
        (spawn [Event.connect 0, Event.connect 1] ⟨[(1, 2 ^ 64 - 1)], []⟩)) ∧
      bpf_map_lookup_elem (⟨[(1, 2 ^ 64 - 1)], []⟩ : State).tcp_metrics 1
        = some (2 ^ 64 - 1) ∧
      bpf_map_lookup_elem (interleave [0, 1, 0, 1]
        (spawn [Event.connect 0, Event.connect 1]
          ⟨[(1, 2 ^ 64 - 1)], []⟩)).state.tcp_metrics 1 = some 1 ∧
      bpf_map_lookup_elem (interleave [0, 1, 0, 1]
        (spawn [Event.connect 0, Event.connect 1]
          ⟨[(1, 2 ^ 64 - 1)], []⟩)).state.tcp_metrics 1 ≠ some (2 ^ 64 - 1 + 2) := by
  refine ⟨by decide, by decide, by decide, by decide⟩

/-- C13 (amended): concurrent increment correctness. Hook invocations run
concurrently, their helper calls interleaved in any order, M of them
counting under a key that already exists with 64-bit value v (others may
count under other keys). Once all have returned, that key holds
`(v + M) mod 2 ^ 64`: no update is lost, and the count is raised by exactly
M whenever `v + M < 2 ^ 64`. Every schedule that lets each invocation make
its three helper calls does let them all return. -/
theorem C13_no_lost_update (κ : Kind) (hκ : κ ≠ Kind.write_other) (es : List Event)
    (s : State) (v : Nat) (sched : List Nat) (hv : v < 2 ^ 64) (hp : probe κ s = some v) :
    (finished (interleave sched (spawn es s)) →
        probe κ (interleave sched (spawn es s)).state =
          some ((v + count_kind κ es) % 2 ^ 64) ∧
        (v + count_kind κ es < 2 ^ 64 →
          probe κ (interleave sched (spawn es s)).state = some (v + count_kind κ es))) ∧
      ((∀ i, i < es.length → 3 ≤ sched.count i) →
        finished (interleave sched (spawn es s))) := by
  refine ⟨?_, fair_schedule_finishes es s sched⟩
  intro hfin
  have h := interleave_no_lost_update κ hκ es s v sched hv hp hfin
  refine ⟨h, ?_⟩
  intro hlt
  rw [h, Nat.mod_eq_of_lt hlt]

/-- Witness of C13: two connects and an accept run concurrently against
get(connect) = 5, both connects looking key 1 up before either adds; all
return and get(connect) = 7. -/
theorem C13_no_lost_update_witness :
    (5 : Nat) < 2 ^ 64 ∧
      probe Kind.connect ⟨[(1, 5)], []⟩ = some 5 ∧
      finished (interleave [0, 1, 2, 0, 2, 1]
        (spawn [Event.connect 0, Event.connect 1, Event.accept 0] ⟨[(1, 5)], []⟩)) ∧
      probe Kind.connect (interleave [0, 1, 2, 0, 2, 1]
        (spawn [Event.connect 0, Event.connect 1, Event.accept 0] ⟨[(1, 5)], []⟩)).state
        = some 7 :=
  ⟨by decide, by decide, by decide,
    ((C13_no_lost_update Kind.connect (by decide)
      [Event.connect 0, Event.connect 1, Event.accept 0] ⟨[(1, 5)], []⟩ 5 [0, 1, 2, 0, 2, 1]
      (by decide) (by decide)).1 (by decide)).2 (by decide)⟩

end Metrics
